import Mathlib

/-!
Verification of the message synchronization and local caching subsystem of
the chaski mail client.

The development shallowly embeds the relevant TypeScript code:

* the SQLite-backed local store of source/services/cacheService.ts
  (CacheService and its table schema);
* the remote mailbox client surface of the IMAP service
  (getMessages with a sequence range, getFolderStatus);
* the synchronizer: the loadMessages page-load path of the MessageList
  component and the handleRefresh incremental refresh of source/app.tsx;
* the folder-name alias resolution loop of the MessageList component.

Persistent state (the SQLite database) is modelled as explicit record values;
each service call is a pure function from the old state (plus the responses
of external collaborators such as the IMAP server) to the new state and the
returned value.  Machine integers of the source are modelled as Int or Nat;
JavaScript Date values as their epoch-millisecond integers.  The surrogate
AUTOINCREMENT id columns of the messages and attachments tables are omitted:
no query of the modelled code ever reads them.
-/

set_option maxRecDepth 8000

namespace Chaski

/-! ## JavaScript string primitives used by the cache layer -/

/-- Semantics of the JavaScript expression s OR alt for strings: the empty
string is falsy, every other string is truthy. -/
def jsOr (s alt : String) : String := if s = "" then alt else s

/-- Semantics of opt?.field OR alt : an absent or empty string falls back. -/
def jsOptOr (s : Option String) (alt : String) : String :=
  match s with
  | none => alt
  | some t => jsOr t alt

/-- Semantics of the JavaScript expression s OR undefined for an optional
string: empty becomes undefined. -/
def jsOrUndef (s : Option String) : Option String :=
  match s with
  | none => none
  | some t => if t = "" then none else some t

/-- Character class removed by String.prototype.trim (ECMA WhiteSpace and
LineTerminator code points). -/
def jsWhitespaceChars : List Char :=
  ['\t', '\n', '\x0b', '\x0c', '\r', ' ',
   '\u00a0', '\ufeff', '\u1680', '\u2000', '\u2001', '\u2002', '\u2003',
   '\u2004', '\u2005', '\u2006', '\u2007', '\u2008', '\u2009', '\u200a',
   '\u2028', '\u2029', '\u202f', '\u205f', '\u3000']

/-- Decision procedure for the trim character class. -/
def jsWhitespace (c : Char) : Bool := jsWhitespaceChars.contains c

/-- Implementation of String.prototype.trim on the character list. -/
def trimChars (l : List Char) : List Char :=
  ((l.dropWhile jsWhitespace).reverse.dropWhile jsWhitespace).reverse

/-- Implementation of String.prototype.split on a comma, at the character
level.  Mirrors the JavaScript semantics: splitting the empty list yields one
empty field, a trailing comma yields a trailing empty field. -/
def splitCommaChars : List Char → List (List Char)
  | [] => [[]]
  | c :: cs =>
    if c = ',' then [] :: splitCommaChars cs
    else
      match splitCommaChars cs with
      | [] => [[c]]
      | h :: t => (c :: h) :: t

/-- Implementation of Array.prototype.join on a comma, at the character
level. -/
def joinCommaChars : List (List Char) → List Char
  | [] => []
  | [x] => x
  | x :: y :: t => x ++ ',' :: joinCommaChars (y :: t)

/-- Flag-list serialization used by the cache writer: msg.flags.join(comma). -/
def joinFlags (fs : List String) : String :=
  ⟨joinCommaChars (fs.map String.data)⟩

/-- Flag-list deserialization used by the cache reader:
cached.flags TRUTHY ? cached.flags.split(comma) : emptyList. -/
def splitFlags (s : String) : List String :=
  if s = "" then [] else (splitCommaChars s.data).map String.mk

/-- Preview computation of CacheService.updateMessages:
text TRUTHY ? text.substring(0,200).replace(newline, space).trim() : empty. -/
def previewOf (bodyText : Option String) : String :=
  match bodyText with
  | none => ""
  | some t =>
    if t = "" then ""
    else ⟨trimChars ((t.data.take 200).map (fun c => if c = '\n' then ' ' else c))⟩

/-! ## Data model (source/types/email.ts and the cacheService.ts schema) -/

/-- EmailAddress of source/types/email.ts. -/
structure EmailAddress where
  name : Option String
  address : String
deriving DecidableEq

/-- Attachment descriptor of source/types/email.ts (content bytes are never
cached and are not modelled). -/
structure Attachment where
  filename : String
  contentType : String
  size : Nat
  contentId : Option String
deriving DecidableEq

/-- EmailMessage of source/types/email.ts, restricted to the fields that the
caching and synchronization code reads or writes.  The date is the epoch
millisecond value of the TypeScript Date.  The field fromAddrs models the
field named from in the source (a Lean keyword). -/
structure EmailMessage where
  id : String
  accountId : String
  folder : String
  uid : Option Nat
  messageId : String
  fromAddrs : List EmailAddress
  subject : String
  date : Int
  bodyText : Option String
  attachments : Option (List Attachment)
  flags : List String
  references : Option (List String)
deriving DecidableEq

/-- Row of the messages table (cacheService.ts createTables), without the
surrogate AUTOINCREMENT id.  has_attachments stores the 0/1 integer as a
Bool. -/
structure MessageRow where
  uid : Nat
  folder_id : String
  account_id : String
  subject : String
  from_name : String
  from_address : String
  date : Int
  flags : String
  preview : String
  has_attachments : Bool
  thread_count : Nat
  last_fetched : Int
deriving DecidableEq

/-- Row of the attachments table, without the surrogate id. -/
structure AttachmentRow where
  message_uid : Nat
  folder_id : String
  account_id : String
  filename : String
  content_type : String
  size : Nat
  content_id : Option String
deriving DecidableEq

/-- Row of the folders table. -/
structure FolderRow where
  id : String
  account_id : String
  name : String
  last_sync : Int
  total_count : Nat
  unread_count : Nat
deriving DecidableEq

/-- The three cache tables relevant to the claims (the message_bodies table
is written by no modelled operation). -/
structure CacheDB where
  messages : List MessageRow
  folders : List FolderRow
  attachments : List AttachmentRow
deriving DecidableEq

/-- CacheService state: db is none when initializeDatabase failed, in which
case every operation below degrades to a no-op exactly as the source's
early-return guards do. -/
structure CacheService where
  db : Option CacheDB
deriving DecidableEq

/-- Empty database produced by a successful initialization. -/
def emptyDB : CacheDB := { messages := [], folders := [], attachments := [] }

/-! ## CacheService operations (source/services/cacheService.ts) -/

/-- Key test of the messages table UNIQUE(uid, folder_id, account_id). -/
def rowKeyIs (uid : Nat) (folderId accountId : String) (r : MessageRow) : Bool :=
  r.uid == uid && r.folder_id == folderId && r.account_id == accountId

/-- Row written by the insert statement of CacheService.updateMessages for a
message whose uid bound is u. -/
def msgToRow (m : EmailMessage) (folderId accountId : String) (now : Int)
    (u : Nat) : MessageRow :=
  { uid := u
    folder_id := folderId
    account_id := accountId
    subject := jsOr m.subject "(No subject)"
    from_name := jsOptOr (m.fromAddrs.head?.bind (·.name)) ""
    from_address := jsOptOr (m.fromAddrs.head?.map (·.address)) ""
    date := m.date
    flags := joinFlags m.flags
    preview := previewOf m.bodyText
    has_attachments := match m.attachments with
      | some l => l.length > 0
      | none => false
    thread_count := match m.references with
      | some r => r.length
      | none => 0
    last_fetched := now }

/-- Row written by the attachment insert statement of updateMessages. -/
def attToRow (u : Nat) (folderId accountId : String) (att : Attachment) :
    AttachmentRow :=
  { message_uid := u
    folder_id := folderId
    account_id := accountId
    filename := jsOr att.filename "unnamed"
    content_type := jsOr att.contentType "application/octet-stream"
    size := att.size
    content_id := jsOrUndef att.contentId }

/-- INSERT OR REPLACE on the messages table: the UNIQUE(uid, folder_id,
account_id) constraint replaces the colliding row, otherwise a new row is
added. -/
def upsertMessageRow (rows : List MessageRow) (r : MessageRow) :
    List MessageRow :=
  if rows.any (rowKeyIs r.uid r.folder_id r.account_id) then
    rows.map (fun x => if rowKeyIs r.uid r.folder_id r.account_id x then r else x)
  else rows ++ [r]

/-- DELETE FROM attachments WHERE message_uid AND folder_id AND account_id. -/
def deleteAttachmentsFor (atts : List AttachmentRow) (u : Nat)
    (folderId accountId : String) : List AttachmentRow :=
  atts.filter (fun a =>
    !(a.message_uid == u && a.folder_id == folderId && a.account_id == accountId))

/-- Effect of one loop iteration of the updateMessages transaction: upsert
the message row, delete the existing attachment rows of that key, then
insert the message's attachment rows if it has any. -/
def applyMessage (folderId accountId : String) (now : Int) (db : CacheDB)
    (m : EmailMessage) : CacheDB :=
  match m.uid with
  | none => db
  | some u =>
    let db1 := { db with messages := upsertMessageRow db.messages (msgToRow m folderId accountId now u) }
    let db2 := { db1 with attachments := deleteAttachmentsFor db1.attachments u folderId accountId }
    match m.attachments with
    | some atts =>
      if atts.length > 0 then
        { db2 with attachments := db2.attachments ++ atts.map (attToRow u folderId accountId) }
      else db2
    | none => db2

/-- CacheService.updateMessages.  A missing db is a no-op.  Binding an
undefined uid makes the prepared statement throw, rolling back the whole
transaction, and the error is caught: the state is then unchanged. -/
def updateMessages (cs : CacheService) (msgs : List EmailMessage)
    (folderId accountId : String) (now : Int) : CacheService :=
  match cs.db with
  | none => cs
  | some db =>
    if msgs.all (fun m => m.uid.isSome) then
      { db := some (msgs.foldl (applyMessage folderId accountId now) db) }
    else cs

/-- Conversion CacheService.cachedMessageToEmailMessage. -/
def cachedMessageToEmailMessage (cached : MessageRow)
    (attachments : List AttachmentRow) : EmailMessage :=
  { id := toString cached.uid
    accountId := cached.account_id
    folder := cached.folder_id
    uid := some cached.uid
    messageId := ""
    fromAddrs := [{ name := jsOrUndef (some cached.from_name)
                    address := cached.from_address }]
    subject := cached.subject
    date := cached.date
    bodyText := some cached.preview
    attachments :=
      if attachments.length > 0 then
        some (attachments.map (fun att =>
          { filename := att.filename
            contentType := att.content_type
            size := att.size
            contentId := jsOrUndef att.content_id }))
      else none
    flags := splitFlags cached.flags
    references := if cached.thread_count > 0 then some [] else none }

/-- Relation ORDER BY date DESC on message rows. -/
def rowDateGe (a b : MessageRow) : Prop := b.date ≤ a.date

instance : DecidableRel rowDateGe := fun a b =>
  inferInstanceAs (Decidable (b.date ≤ a.date))

instance : IsTotal MessageRow rowDateGe := ⟨fun a b => le_total b.date a.date⟩

instance : IsTrans MessageRow rowDateGe :=
  ⟨fun _ _ _ h1 h2 => le_trans h2 h1⟩

/-- Attachment rows joined to a message row by getCachedMessages. -/
def attachmentsOf (db : CacheDB) (u : Nat) (folderId accountId : String) :
    List AttachmentRow :=
  db.attachments.filter (fun a =>
    a.message_uid == u && a.folder_id == folderId && a.account_id == accountId)

/-- CacheService.getCachedMessages: SELECT the folder's rows ORDER BY date
DESC LIMIT limit OFFSET offset, join each row's attachments, and convert.
A missing db returns the empty list. -/
def getCachedMessages (cs : CacheService) (folderId accountId : String)
    (limit offset : Nat) : List EmailMessage :=
  match cs.db with
  | none => []
  | some db =>
    let rows := db.messages.filter (fun r =>
      r.folder_id == folderId && r.account_id == accountId)
    let sorted := rows.insertionSort rowDateGe
    ((sorted.drop offset).take limit).map (fun row =>
      cachedMessageToEmailMessage row (attachmentsOf db row.uid folderId accountId))

/-- CacheService.getLastSyncTime: SELECT MAX(last_fetched); both a NULL
aggregate (no rows) and a zero value are returned as null by the truthiness
test in the source. -/
def getLastSyncTime (cs : CacheService) (folderId accountId : String) :
    Option Int :=
  match cs.db with
  | none => none
  | some db =>
    match ((db.messages.filter (fun r =>
        r.folder_id == folderId && r.account_id == accountId)).map
        (·.last_fetched)).max? with
    | none => none
    | some v => if v = 0 then none else some v

/-- Primary key of the folders table: accountId : folderId. -/
def folderKey (accountId folderId : String) : String :=
  accountId ++ ":" ++ folderId

/-- INSERT OR REPLACE on the folders table (primary key id). -/
def upsertFolderRow (rows : List FolderRow) (r : FolderRow) : List FolderRow :=
  if rows.any (fun x => x.id == r.id) then
    rows.map (fun x => if x.id == r.id then r else x)
  else rows ++ [r]

/-- CacheService.updateFolderMetadata. -/
def updateFolderMetadata (cs : CacheService) (folderId accountId : String)
    (totalCount unreadCount : Nat) (now : Int) : CacheService :=
  match cs.db with
  | none => cs
  | some db =>
    let row : FolderRow :=
      { id := folderKey accountId folderId
        account_id := accountId
        name := folderId
        last_sync := now
        total_count := totalCount
        unread_count := unreadCount }
    { db := some { db with folders := upsertFolderRow db.folders row } }

/-- CacheService.getFolderMetadata: the (totalMessages, unreadCount) pair of
the folders row, or none. -/
def getFolderMetadata (cs : CacheService) (folderId accountId : String) :
    Option (Nat × Nat) :=
  match cs.db with
  | none => none
  | some db =>
    (db.folders.find? (fun f => f.id == folderKey accountId folderId)).map
      (fun f => (f.total_count, f.unread_count))

/-- CacheService.clearFolder: DELETE FROM messages for the key.  The
attachments table declares FOREIGN KEY (message_uid, folder_id, account_id)
REFERENCES messages ON DELETE CASCADE, so the attachment rows of the deleted
message rows are removed with them; the folders table is untouched. -/
def clearFolder (cs : CacheService) (folderId accountId : String) :
    CacheService :=
  match cs.db with
  | none => cs
  | some db =>
    let gone := fun (r : MessageRow) =>
      r.folder_id == folderId && r.account_id == accountId
    { db := some { db with
        messages := db.messages.filter (fun r => !(gone r))
        attachments := db.attachments.filter (fun a =>
          !(db.messages.any (fun r =>
            gone r && rowKeyIs a.message_uid a.folder_id a.account_id r))) } }

/-- CacheService.updateMessageFlags: UPDATE messages SET flags WHERE the
key matches. -/
def updateMessageFlags (cs : CacheService) (u : Nat)
    (folderId accountId : String) (flags : List String) : CacheService :=
  match cs.db with
  | none => cs
  | some db =>
    { db := some { db with messages := db.messages.map (fun r =>
        if rowKeyIs u folderId accountId r then
          { r with flags := joinFlags flags }
        else r) } }

/-! ## Remote mailbox client (ImapService, src/unnamed/part_004) -/

/-- Relation of the date-descending comparator (a, b) => b.date - a.date
passed to Array.prototype.sort in ImapService.getMessages. -/
def msgDateGe (a b : EmailMessage) : Prop := b.date ≤ a.date

instance : DecidableRel msgDateGe := fun a b =>
  inferInstanceAs (Decidable (b.date ≤ a.date))

instance : IsTotal EmailMessage msgDateGe := ⟨fun a b => le_total b.date a.date⟩

instance : IsTrans EmailMessage msgDateGe :=
  ⟨fun _ _ _ h1 h2 => le_trans h2 h1⟩

/-- Date-descending sort applied by ImapService.getMessages to the fetched
messages of a sequence range. -/
def sortByDateDesc (msgs : List EmailMessage) : List EmailMessage :=
  msgs.insertionSort msgDateGe

/-- ImapService.getMessages for an explicit start:end sequence range: the
messages the server returns for the range (the remote argument), sorted by
date descending.  The limit parameter of the source is not read on this
path. -/
def imapGetMessages (remote : Int × Int → List EmailMessage)
    (startSeq endSeq : Int) : List EmailMessage :=
  sortByDateDesc (remote (startSeq, endSeq))

/-- Mailbox counters reported by openBox (box.messages.total and
box.messages.new, each defaulted to 0 by the source when absent). -/
structure BoxInfo where
  total : Nat
  newCount : Nat
deriving DecidableEq

/-- ImapService.getFolderStatus.  Arguments model the collaborator
responses: whether a connection exists, the openBox outcome, and the two
search outcomes (a search may also succeed with a null result list, which
the source counts as 0). -/
def getFolderStatus (connected : Bool) (openBox : Except String BoxInfo)
    (searchAll : Except String (Option (List Nat)))
    (searchUnseen : Except String (Option (List Nat))) :
    Except String (Nat × Nat) :=
  if !connected then .error "Not connected"
  else
    match openBox with
    | .error e => .error e
    | .ok box =>
      match searchAll with
      | .error _ => .ok (box.total, box.newCount)
      | .ok allResults =>
        let actualTotal := (allResults.getD []).length
        match searchUnseen with
        | .error _ => .ok (actualTotal, box.newCount)
        | .ok unseenResults => .ok (actualTotal, (unseenResults.getD []).length)

/-! ## Folder-name alias resolution (MessageList component loadMessages) -/

/-- Uppercasing used by the folder matching loop (toUpperCase on the ASCII
names involved), applied characterwise. -/
def toUpper (s : String) : String := ⟨s.data.map Char.toUpper⟩

/-- Condition of the folder matching loop, comparing the uppercased
requested folder name with the uppercased server folder name. -/
def folderMatches (normalizedFolder normalized : String) : Bool :=
  normalized == normalizedFolder ||
  (normalizedFolder == "SENT" &&
    (normalized == "SENT MAIL" || normalized == "SENT MESSAGES")) ||
  (normalizedFolder == "DELETED" &&
    (normalized == "DELETED MESSAGES" || normalized == "DELETED ITEMS")) ||
  (normalizedFolder == "JUNK" &&
    (normalized == "JUNK E-MAIL" || normalized == "JUNK MAIL")) ||
  (normalizedFolder == "TRASH" && normalized == "DELETED")

/-- Folder alias resolution loop of loadMessages (it appears twice verbatim
in the source, on the cache-metadata path and on the remote path): the first
live folder whose uppercased name matches wins, otherwise the requested name
is kept. -/
def resolveFolder (folder : String) (folders : List String) : String :=
  match folders.find? (fun f => folderMatches (toUpper folder) (toUpper f)) with
  | some f => f
  | none => folder

/-! ## Page load (loadMessages of the MessageList component) -/

/-- Sequence-window computation of loadMessages.  bufferSize models
Math.ceil(messagesPerPage * 1.5), computed exactly on integers; the link to
the rational ceiling is proved below. -/
def bufferSizeOf (messagesPerPage : Nat) : Int :=
  (3 * (messagesPerPage : Int) + 1) / 2

/-- Clamped (startSeq, endSeq) window requested for a page:
endSeq = max(1, total - (page-1) * pageSize),
startSeq = max(1, endSeq - bufferSize + 1). -/
def pageWindow (total page pageSize : Nat) : Int × Int :=
  let endSeq : Int := max 1 ((total : Int) - ((page : Int) - 1) * (pageSize : Int))
  (max 1 (endSeq - bufferSizeOf pageSize + 1), endSeq)

/-- Environment of one loadMessages run: the live folder list of the
account, the getFolderStatus response, the server's response to a range
fetch, and the clock. -/
structure LoadEnv where
  folders : List String
  status : Except String (Nat × Nat)
  remote : Int × Int → List EmailMessage
  now : Int

/-- Result of one loadMessages run: the displayed messages, whether they
came from the cache, whether the defensive invalid-range branch was taken,
and the cache state afterwards. -/
structure LoadResult where
  messages : List EmailMessage
  fromCache : Bool
  errorRange : Bool
  cache : CacheService
deriving DecidableEq

/-- Remote part of loadMessages, from the sequence-window computation on:
abort with an empty result if the clamped window is inverted, otherwise
fetch the window, keep the first pageSize messages, and (if any) write them
and the folder metadata back to the cache under the resolved folder name. -/
def remoteFetchPage (cs : CacheService) (actualFolderName accountId : String)
    (pageSize : Nat) (actualTotal : Nat) (startSeq endSeq : Int)
    (env : LoadEnv) : LoadResult :=
  if startSeq > endSeq then
    { messages := [], fromCache := false, errorRange := true, cache := cs }
  else
    let pageMessages := imapGetMessages env.remote startSeq endSeq
    let messagesForPage := pageMessages.take pageSize
    let cache :=
      if messagesForPage.length > 0 then
        updateFolderMetadata
          (updateMessages cs messagesForPage actualFolderName accountId env.now)
          actualFolderName accountId actualTotal 0 env.now
      else cs
    { messages := messagesForPage, fromCache := false, errorRange := false
      cache := cache }

/-- The loadMessages effect of the MessageList component.  The cached page
is read with the raw folder prop; the folder metadata, the remote fetch and
the cache write-back use the alias-resolved name.  prevTotal is the
totalMessages state used as fallback when getFolderStatus fails (0 when
never set, in which case the source estimates 100). -/
def loadMessages (cs : CacheService) (folder accountId : String)
    (currentPage messagesPerPage prevTotal : Nat) (env : LoadEnv) :
    LoadResult :=
  let offset := (currentPage - 1) * messagesPerPage
  let cached := getCachedMessages cs folder accountId messagesPerPage offset
  let actualFolderName := resolveFolder folder env.folders
  let cacheIsComplete :=
    let metaTotal := match getFolderMetadata cs actualFolderName accountId with
      | some (t, _) => t
      | none => 0
    let totalPages := (metaTotal + messagesPerPage - 1) / messagesPerPage
    let isLastPage := totalPages ≤ currentPage
    isLastPage || messagesPerPage ≤ cached.length
  if cached.length > 0 && cacheIsComplete then
    { messages := cached, fromCache := true, errorRange := false, cache := cs }
  else
    let actualTotal : Nat :=
      match env.status with
      | .ok (t, _) => t
      | .error _ => if prevTotal = 0 then 100 else prevTotal
    if actualTotal = 0 then
      { messages := [], fromCache := false, errorRange := false, cache := cs }
    else
      let w := pageWindow actualTotal currentPage messagesPerPage
      remoteFetchPage cs actualFolderName accountId messagesPerPage actualTotal
        w.1 w.2 env

/-! ## Incremental refresh (handleRefresh of source/app.tsx) -/

/-- Structural helper for the backward walk of the initial load; the first
argument is fuel that dominates the decreasing end sequence, so that the
function reduces definitionally. -/
def backfillRangesAux : Nat → Nat → List (Nat × Nat)
  | 0, _ => []
  | _, 0 => []
  | fuel + 1, e + 1 =>
    (max 1 (e + 1 - 499), e + 1) :: backfillRangesAux fuel (e + 1 - 500)

/-- Sequence ranges requested by the backward walk of the initial load:
starting from endSeq, each iteration requests
max(1, endSeq - regularBatchSize + 1) : endSeq with regularBatchSize = 500
and steps endSeq down by 500 while it stays positive. -/
def backfillRanges (n : Nat) : List (Nat × Nat) := backfillRangesAux n n

/-- All sequence ranges requested by the initial (empty-cache) load, first
batch first: the newest firstBatchSize = 50 sequence numbers, then the
backward walk over what remains. -/
def initialLoadRanges (totalMessages : Nat) : List (Nat × Nat) :=
  let firstStartSeq := max 1 (totalMessages - 50 + 1)
  (firstStartSeq, totalMessages) :: backfillRanges (firstStartSeq - 1)

/-- State threaded through the initial-load loop: the cache, the
accumulated message list, and the log of cache-write payloads in order. -/
structure InitialLoadState where
  cache : CacheService
  all : List EmailMessage
  writes : List (List EmailMessage)

/-- One backward-walk iteration of the initial load: fetch the batch,
append it, and flush the accumulated list to the cache when its length is a
multiple of 1000. -/
def initialLoadStep (folder accountId : String)
    (remote : Int × Int → List EmailMessage) (now : Int)
    (st : InitialLoadState) (r : Nat × Nat) : InitialLoadState :=
  let batch := imapGetMessages remote (r.1 : Int) (r.2 : Int)
  let acc := st.all ++ batch
  if acc.length % 1000 == 0 then
    { cache := updateMessages st.cache acc folder accountId now
      all := acc, writes := st.writes ++ [acc] }
  else
    { cache := st.cache, all := acc, writes := st.writes }

/-- Initial (empty-cache) load of handleRefresh: fetch the newest 50
sequence numbers, write them to the cache immediately, then walk backward in
batches of 500 down to sequence 1, flushing every 1000 accumulated
messages. -/
def initialLoad (cs : CacheService) (folder accountId : String)
    (totalMessages : Nat) (remote : Int × Int → List EmailMessage)
    (now : Int) : InitialLoadState :=
  let firstStartSeq := max 1 (totalMessages - 50 + 1)
  let firstBatch := imapGetMessages remote (firstStartSeq : Int) (totalMessages : Int)
  let cs1 := updateMessages cs firstBatch folder accountId now
  (backfillRanges (firstStartSeq - 1)).foldl
    (initialLoadStep folder accountId remote now)
    { cache := cs1, all := firstBatch, writes := [firstBatch] }

/-- Truthy uid of a message: the JavaScript test msg.uid is false for an
undefined uid and for uid 0. -/
def truthyUid (m : EmailMessage) : Option Nat :=
  match m.uid with
  | none => none
  | some u => if u = 0 then none else some u

/-- Uids of the cached messages, as collected into the existingUIDs set
(only an undefined uid is filtered out there, uid 0 is kept). -/
def existingUIDs (cachedMessages : List EmailMessage) : List Nat :=
  cachedMessages.filterMap (·.uid)

/-- Fetched messages with a truthy uid that is not among the cached uids. -/
def newMessagesOf (cachedMessages fetchedMessages : List EmailMessage) :
    List EmailMessage :=
  fetchedMessages.filter (fun m =>
    match truthyUid m with
    | some u => !(existingUIDs cachedMessages).contains u
    | none => false)

/-- Insertion into the uid-keyed Map: an existing key keeps its position and
gets the new value, a new key is appended (JavaScript Map insertion
order). -/
def mapInsert (l : List (Nat × EmailMessage)) (k : Nat) (v : EmailMessage) :
    List (Nat × EmailMessage) :=
  if l.any (fun p => p.1 == k) then
    l.map (fun p => if p.1 == k then (k, v) else p)
  else l ++ [(k, v)]

/-- Insertion of every message with a truthy uid into the Map, in list
order. -/
def mapInsertAll (l : List (Nat × EmailMessage))
    (msgs : List EmailMessage) : List (Nat × EmailMessage) :=
  msgs.foldl (fun acc m =>
    match truthyUid m with
    | some u => mapInsert acc u m
    | none => acc) l

/-- Steady-state merge of handleRefresh: if any fetched message is new,
build the uid map from the cached messages then overwrite with all fetched
messages and take its values; otherwise keep the cached list unchanged.
Returns the merged list and the new messages. -/
def regularRefreshMerge (cachedMessages fetchedMessages : List EmailMessage) :
    List EmailMessage × List EmailMessage :=
  let newMessages := newMessagesOf cachedMessages fetchedMessages
  if newMessages.length > 0 then
    ((mapInsertAll (mapInsertAll [] cachedMessages) fetchedMessages).map (·.2),
     newMessages)
  else (cachedMessages, newMessages)

/-- Unread count recomputed from flags after a refresh:
messages without a Seen flag. -/
def computeUnread (msgs : List EmailMessage) : Nat :=
  (msgs.filter (fun m => !(m.flags.contains "\\Seen"))).length

/-- The handleRefresh flow for scope current, for one folder of one
account, given the total reported by getFolderStatus and the server's range
responses.  Reads up to 10000 cached messages, takes the initial-load branch
on an empty cache and the steady-state merge otherwise (window of the newest
messagesToCheck = 200 sequence numbers), then rewrites the merged list and
the folder metadata (total = merged count, unread recomputed from flags). -/
def handleRefreshCurrent (cs : CacheService) (folder accountId : String)
    (total : Nat) (remote : Int × Int → List EmailMessage) (now : Int) :
    CacheService :=
  let cachedMessages := getCachedMessages cs folder accountId 10000 0
  let st :=
    if total > 0 then
      if cachedMessages.length = 0 then
        let s := initialLoad cs folder accountId total remote now
        (s.cache, s.all)
      else
        let endSeq := total
        let startSeq := max 1 (endSeq - 200 + 1)
        let fetchedMessages := imapGetMessages remote (startSeq : Int) (endSeq : Int)
        (cs, (regularRefreshMerge cachedMessages fetchedMessages).1)
    else (cs, ([] : List EmailMessage))
  let cs1 := updateMessages st.1 st.2 folder accountId now
  updateFolderMetadata cs1 folder accountId st.2.length (computeUnread st.2) now

/-! ## Concrete fixtures shared by witnesses and counterexamples -/

/-- Minimal message fixture with a uid and a date. -/
def sampleMsg (u : Nat) (d : Int) : EmailMessage :=
  { id := toString u, accountId := "", folder := "", uid := some u
    messageId := "", fromAddrs := [{ name := none, address := "s@x.com" }]
    subject := "hi", date := d, bodyText := none, attachments := none
    flags := [], references := none }

/-- Cache service with an initialized empty store. -/
def csEmpty : CacheService := { db := some emptyDB }

/-- Cache service whose initialization failed. -/
def csNone : CacheService := { db := none }

/-- Load environment fixture: one folder, a healthy status of 523 messages,
and a two-message server response for any range. -/
def sampleEnv : LoadEnv :=
  { folders := ["INBOX"]
    status := .ok (523, 4)
    remote := fun _ => [sampleMsg 7 50, sampleMsg 9 80]
    now := 42 }

/-! ## Uid-map merge lemmas -/

/-- Keys of the uid map, in insertion order. -/
def mapKeys (l : List (Nat × EmailMessage)) : List Nat := l.map (·.1)

/-! ## Folder aliasing: fixtures and resolution facts -/

/-- Message row fixture stored under the server's spelling of Sent. -/
def sentMailRow : MessageRow :=
  { uid := 1, folder_id := "Sent Mail", account_id := "acct", subject := "hi"
    from_name := "", from_address := "s@x.com", date := 100, flags := ""
    preview := "", has_attachments := false, thread_count := 0
    last_fetched := 1 }

/-- Cache holding one message under the canonical server name Sent Mail. -/
def csSentMail : CacheService :=
  { db := some { messages := [sentMailRow], folders := [], attachments := [] } }

/-- Environment of an account whose server reports the folder Sent Mail. -/
def envSentMail : LoadEnv :=
  { folders := ["Sent Mail"], status := .ok (1, 0), remote := fun _ => []
    now := 5 }

/-! ## clearFolder frame effects -/

/-- Attachment row fixture for the clearFolder counterexample. -/
def inboxAttRow : AttachmentRow :=
  { message_uid := 1, folder_id := "INBOX", account_id := "acct"
    filename := "a.txt", content_type := "text/plain", size := 3
    content_id := none }

/-- Message row fixture under INBOX. -/
def inboxRow : MessageRow :=
  { uid := 1, folder_id := "INBOX", account_id := "acct", subject := "hi"
    from_name := "", from_address := "s@x.com", date := 100, flags := "\\Seen"
    preview := "", has_attachments := true, thread_count := 0
    last_fetched := 1 }

/-- Folder metadata row fixture for INBOX. -/
def inboxFolderRow : FolderRow :=
  { id := "acct:INBOX", account_id := "acct", name := "INBOX", last_sync := 9
    total_count := 1, unread_count := 0 }

/-- Cache with one INBOX message, its attachment row, and its metadata. -/
def csInbox : CacheService :=
  { db := some { messages := [inboxRow], folders := [inboxFolderRow]
                 attachments := [inboxAttRow] } }

/-! ## Transaction effect on the individual tables -/

/-- Messages-table effect of one transaction iteration, projected out. -/
def upsertStep (folderId accountId : String) (now : Int)
    (M : List MessageRow) (m : EmailMessage) : List MessageRow :=
  match m.uid with
  | some u => upsertMessageRow M (msgToRow m folderId accountId now u)
  | none => M

/-- Attachments-table effect of one transaction iteration, projected out. -/
def attStep (folderId accountId : String) (A : List AttachmentRow)
    (m : EmailMessage) : List AttachmentRow :=
  match m.uid with
  | some u =>
    let d := deleteAttachmentsFor A u folderId accountId
    match m.attachments with
    | some atts =>
      if atts.length > 0 then d ++ atts.map (attToRow u folderId accountId)
      else d
    | none => d
  | none => A

/-- Attachment rows a message write leaves under its key. -/
def attWritesOf (m : EmailMessage) (u : Nat) (folderId accountId : String) :
    List AttachmentRow :=
  match m.attachments with
  | some atts =>
    if atts.length > 0 then atts.map (attToRow u folderId accountId) else []
  | none => []

/-- Unread count over raw rows, as recomputed from flags after a merge. -/
def unreadOfRows (rows : List MessageRow) : Nat :=
  rows.countP (fun r => !((splitFlags r.flags).contains "\\Seen"))

/-! ## Steady-state refresh as one database rewrite -/

/-- Message rows of one folder of one account (the WHERE clause shared by
the cache reads and the refresh write-back). -/
def folderRowsOf (db : CacheDB) (f a : String) : List MessageRow :=
  db.messages.filter (fun r => r.folder_id == f && r.account_id == a)

/-- Conversion of one cached row with its joined attachment rows. -/
def convOf (db : CacheDB) (f a : String) (row : MessageRow) : EmailMessage :=
  cachedMessageToEmailMessage row (attachmentsOf db row.uid f a)

/-- One cached row after a steady-state refresh: converted to an
EmailMessage and re-inserted by the updateMessages transaction. -/
def rewriteOf (db : CacheDB) (f a : String) (t : Int) (r : MessageRow) :
    MessageRow :=
  msgToRow (convOf db f a r) f a t r.uid

/-- The covering cached page a steady-state refresh reads. -/
def cachedPageOf (db : CacheDB) (f a : String) : List EmailMessage :=
  ((folderRowsOf db f a).insertionSort rowDateGe).map (convOf db f a)

/-- Metadata row written back by a steady-state refresh at time t. -/
def steadyMetaRow (db : CacheDB) (f a : String) (t : Int) : FolderRow :=
  { id := folderKey a f, account_id := a, name := f, last_sync := t
    total_count := (folderRowsOf db f a).length
    unread_count := unreadOfRows (folderRowsOf db f a) }

/-- Database state after one steady-state refresh at time t. -/
def steadyDB (db : CacheDB) (f a : String) (t : Int) : CacheDB :=
  { messages := db.messages.map (fun r =>
      if (r.folder_id == f && r.account_id == a) = true then rewriteOf db f a t r
      else r)
    folders := upsertFolderRow db.folders (steadyMetaRow db f a t)
    attachments := (cachedPageOf db f a).foldl (attStep f a) db.attachments }

/-- The cache database inside csInbox, named for direct use. -/
def inboxDB : CacheDB :=
  { messages := [inboxRow], folders := [inboxFolderRow]
    attachments := [inboxAttRow] }

/-- Server response fixture: every range returns the one message already
cached under INBOX, unchanged. -/
def remoteSame : Int × Int → List EmailMessage :=
  fun _ => [{ sampleMsg 1 100 with flags := ["\\Seen"] }]

/-- Fuel irrelevance of the backward-walk helper. -/
theorem backfillRangesAux_congr :
    ∀ fuel1 fuel2 e, e ≤ fuel1 → e ≤ fuel2 →
      backfillRangesAux fuel1 e = backfillRangesAux fuel2 e := by
  intro fuel1
  induction fuel1 with
  | zero =>
    intro fuel2 e h1 _
    interval_cases e
    cases fuel2 <;> rfl
  | succ f ih =>
    intro fuel2 e h1 h2
    cases e with
    | zero => cases fuel2 <;> rfl
    | succ d =>
      cases fuel2 with
      | zero => omega
      | succ f2 =>
        show _ :: backfillRangesAux f (d + 1 - 500)
            = _ :: backfillRangesAux f2 (d + 1 - 500)
        rw [ih f2 (d + 1 - 500) (by omega) (by omega)]

/-- Unfolding equation of the backward walk. -/
theorem backfillRanges_eq (n : Nat) :
    backfillRanges n =
      match n with
      | 0 => []
      | e + 1 => (max 1 (e + 1 - 499), e + 1) :: backfillRanges (e + 1 - 500) := by
  cases n with
  | zero => rfl
  | succ e =>
    show backfillRangesAux (e + 1) (e + 1) = _
    rw [backfillRangesAux]
    show _ :: backfillRangesAux e (e + 1 - 500)
        = _ :: backfillRangesAux (e + 1 - 500) (e + 1 - 500)
    rw [backfillRangesAux_congr e (e + 1 - 500) (e + 1 - 500) (by omega) le_rfl]

/-! ## Arithmetic facts about the page window -/

/-- Value of the integer buffer computation as the rational ceiling the
source computes with Math.ceil. -/
theorem bufferSizeOf_eq_ceil (p : Nat) :
    bufferSizeOf p = ⌈((p : ℚ) * 1.5)⌉ := by
  have hq1 : 2 * ((3 * (p : ℤ) + 1) / 2) ≤ 3 * p + 1 := by omega
  have hq2 : 3 * (p : ℤ) ≤ 2 * ((3 * (p : ℤ) + 1) / 2) := by omega
  have hq1Q : 2 * (((3 * (p : ℤ) + 1) / 2 : ℤ) : ℚ) ≤ 3 * (p : ℚ) + 1 := by
    exact_mod_cast hq1
  have hq2Q : 3 * (p : ℚ) ≤ 2 * (((3 * (p : ℤ) + 1) / 2 : ℤ) : ℚ) := by
    exact_mod_cast hq2
  have h15 : (1.5 : ℚ) = 3 / 2 := by norm_num
  symm
  rw [Int.ceil_eq_iff]
  constructor
  · rw [bufferSizeOf, h15]
    linarith
  · rw [bufferSizeOf, h15]
    linarith

/-- Under the clamps the window is never inverted. -/
theorem pageWindow_le (total page pageSize : Nat) (_h1 : 1 ≤ total)
    (_h2 : 1 ≤ page) (h3 : 1 ≤ pageSize) :
    (pageWindow total page pageSize).1 ≤ (pageWindow total page pageSize).2 := by
  simp only [pageWindow, bufferSizeOf]
  omega

/-- C6: if the clamped bounds ever satisfied startSeq > endSeq the load
would return an empty result with the defensive range error and leave the
cache untouched; and for every total, page and pageSize at least 1 the
clamped window satisfies startSeq ≤ endSeq, so that branch cannot be
reached from the clamp computation. -/
theorem claim6_range_guard :
    (∀ cs actualFolderName accountId pageSize actualTotal
        (startSeq endSeq : Int) env, startSeq > endSeq →
      (remoteFetchPage cs actualFolderName accountId pageSize actualTotal
          startSeq endSeq env).messages = [] ∧
      (remoteFetchPage cs actualFolderName accountId pageSize actualTotal
          startSeq endSeq env).errorRange = true ∧
      (remoteFetchPage cs actualFolderName accountId pageSize actualTotal
          startSeq endSeq env).cache = cs) ∧
    (∀ total page pageSize, 1 ≤ total → 1 ≤ page → 1 ≤ pageSize →
      (pageWindow total page pageSize).1 ≤ (pageWindow total page pageSize).2) := by
  constructor
  · intro cs afn aid ps at2 s e env hgt
    simp [remoteFetchPage, hgt]
  · exact pageWindow_le

/-- Witness for the range guard: an inverted window (5, 3) aborts empty,
and the clamped window of the 523-message scenario is not inverted. -/
theorem claim6_range_guard_witness :
    ((remoteFetchPage csEmpty "INBOX" "acct" 20 523 5 3 sampleEnv).messages = [] ∧
     (remoteFetchPage csEmpty "INBOX" "acct" 20 523 5 3 sampleEnv).errorRange = true ∧
     (remoteFetchPage csEmpty "INBOX" "acct" 20 523 5 3 sampleEnv).cache = csEmpty) ∧
    (pageWindow 523 1 20).1 ≤ (pageWindow 523 1 20).2 :=
  ⟨claim6_range_guard.1 csEmpty "INBOX" "acct" 20 523 5 3 sampleEnv (by decide),
   claim6_range_guard.2 523 1 20 (by decide) (by decide) (by decide)⟩

/-! ## Page-load pipeline lemmas -/

/-- An insertion sort by the date-descending relation is sorted. -/
theorem sortByDateDesc_sorted (l : List EmailMessage) :
    List.Sorted msgDateGe (sortByDateDesc l) :=
  List.sorted_insertionSort msgDateGe l

/-- Prefixes of sorted lists are sorted. -/
theorem sorted_take {l : List EmailMessage} (h : List.Sorted msgDateGe l)
    (n : Nat) : List.Sorted msgDateGe (l.take n) :=
  List.Pairwise.sublist (List.take_sublist n l) h

/-- Behaviour of the remote fetch when the window is not inverted. -/
theorem remoteFetchPage_ok (cs : CacheService) (afn aid : String)
    (pageSize actualTotal : Nat) (s e : Int) (env : LoadEnv) (h : ¬ s > e) :
    (remoteFetchPage cs afn aid pageSize actualTotal s e env).messages
        = (imapGetMessages env.remote s e).take pageSize ∧
    (remoteFetchPage cs afn aid pageSize actualTotal s e env).fromCache = false ∧
    (remoteFetchPage cs afn aid pageSize actualTotal s e env).errorRange = false ∧
    (remoteFetchPage cs afn aid pageSize actualTotal s e env).cache
        = (if 0 < ((imapGetMessages env.remote s e).take pageSize).length then
            updateFolderMetadata
              (updateMessages cs ((imapGetMessages env.remote s e).take pageSize)
                afn aid env.now) afn aid actualTotal 0 env.now
          else cs) := by
  simp [remoteFetchPage, h]

/-- When the cached page is empty and the folder status succeeds with a
positive total, loadMessages reduces to the remote fetch over the clamped
window, under the alias-resolved folder name. -/
theorem loadMessages_remote (cs : CacheService) (folder accountId : String)
    (page pageSize prevTotal : Nat) (env : LoadEnv) (total unseen : Nat)
    (hcache : getCachedMessages cs folder accountId pageSize
      ((page - 1) * pageSize) = [])
    (hstat : env.status = .ok (total, unseen)) (h1 : 1 ≤ total) :
    loadMessages cs folder accountId page pageSize prevTotal env =
      remoteFetchPage cs (resolveFolder folder env.folders) accountId pageSize
        total (pageWindow total page pageSize).1
        (pageWindow total page pageSize).2 env := by
  have hne : ¬ total = 0 := by omega
  simp [loadMessages, hcache, hstat, hne]

/-- C1: with a 1-based page, a positive folder total and a positive page
size, the remote page fetch requests the window
endSeq = max(1, total - (page-1) * pageSize),
bufferSize = ceil(pageSize * 1.5),
startSeq = max(1, endSeq - bufferSize + 1); in particular total 523, page 1,
pageSize 20 yields endSeq 523, bufferSize 30, startSeq 494; and the
displayed result is the date-descending sort of the fetch truncated to the
first pageSize entries, which is also what is written back to the cache. -/
theorem claim1_remote_page_fetch (cs : CacheService)
    (folder accountId : String) (page pageSize prevTotal : Nat)
    (env : LoadEnv) (total unseen : Nat)
    (hcache : getCachedMessages cs folder accountId pageSize
      ((page - 1) * pageSize) = [])
    (hstat : env.status = .ok (total, unseen))
    (h1 : 1 ≤ total) (h2 : 1 ≤ page) (h3 : 1 ≤ pageSize) :
    (pageWindow total page pageSize).2
        = max 1 ((total : Int) - ((page : Int) - 1) * (pageSize : Int)) ∧
    bufferSizeOf pageSize = ⌈((pageSize : ℚ) * 1.5)⌉ ∧
    (pageWindow total page pageSize).1
        = max 1 ((pageWindow total page pageSize).2 - bufferSizeOf pageSize + 1) ∧
    (pageWindow 523 1 20 = (494, 523) ∧ bufferSizeOf 20 = 30) ∧
    (loadMessages cs folder accountId page pageSize prevTotal env).messages
        = (sortByDateDesc (env.remote
            ((pageWindow total page pageSize).1,
             (pageWindow total page pageSize).2))).take pageSize ∧
    List.Sorted msgDateGe
      (loadMessages cs folder accountId page pageSize prevTotal env).messages ∧
    (loadMessages cs folder accountId page pageSize prevTotal env).messages.length
        ≤ pageSize ∧
    (0 < (loadMessages cs folder accountId page pageSize prevTotal env).messages.length →
      (loadMessages cs folder accountId page pageSize prevTotal env).cache
        = updateFolderMetadata
            (updateMessages cs
              (loadMessages cs folder accountId page pageSize prevTotal env).messages
              (resolveFolder folder env.folders) accountId env.now)
            (resolveFolder folder env.folders) accountId total 0 env.now) := by
  have hle := pageWindow_le total page pageSize h1 h2 h3
  have hred := loadMessages_remote cs folder accountId page pageSize prevTotal
    env total unseen hcache hstat h1
  have hok := remoteFetchPage_ok cs (resolveFolder folder env.folders) accountId
    pageSize total (pageWindow total page pageSize).1
    (pageWindow total page pageSize).2 env (by omega)
  have hmsgs : (loadMessages cs folder accountId page pageSize prevTotal env).messages
      = (imapGetMessages env.remote (pageWindow total page pageSize).1
          (pageWindow total page pageSize).2).take pageSize := by
    rw [hred]; exact hok.1
  refine ⟨rfl, bufferSizeOf_eq_ceil pageSize, rfl, by decide, ?_, ?_, ?_, ?_⟩
  · exact hmsgs
  · rw [hmsgs]
    exact sorted_take (sortByDateDesc_sorted _) pageSize
  · rw [hmsgs]
    exact List.length_take_le pageSize _
  · intro hpos
    rw [hred] at hpos ⊢
    rw [hok.2.2.2, if_pos (by rw [← hok.1]; exact hpos), hok.1]

/-- Witness for C1: the 523-message, page-1, pageSize-20 scenario on an
empty cache with the sample environment. -/
theorem claim1_remote_page_fetch_witness :
    (pageWindow 523 1 20).2 = max 1 ((523 : Int) - ((1 : Int) - 1) * (20 : Int)) ∧
    bufferSizeOf 20 = ⌈((20 : ℚ) * 1.5)⌉ ∧
    (pageWindow 523 1 20).1
        = max 1 ((pageWindow 523 1 20).2 - bufferSizeOf 20 + 1) ∧
    (pageWindow 523 1 20 = (494, 523) ∧ bufferSizeOf 20 = 30) ∧
    (loadMessages csEmpty "INBOX" "acct" 1 20 0 sampleEnv).messages
        = (sortByDateDesc (sampleEnv.remote
            ((pageWindow 523 1 20).1, (pageWindow 523 1 20).2))).take 20 ∧
    List.Sorted msgDateGe
      (loadMessages csEmpty "INBOX" "acct" 1 20 0 sampleEnv).messages ∧
    (loadMessages csEmpty "INBOX" "acct" 1 20 0 sampleEnv).messages.length ≤ 20 ∧
    (0 < (loadMessages csEmpty "INBOX" "acct" 1 20 0 sampleEnv).messages.length →
      (loadMessages csEmpty "INBOX" "acct" 1 20 0 sampleEnv).cache
        = updateFolderMetadata
            (updateMessages csEmpty
              (loadMessages csEmpty "INBOX" "acct" 1 20 0 sampleEnv).messages
              (resolveFolder "INBOX" sampleEnv.folders) "acct" sampleEnv.now)
            (resolveFolder "INBOX" sampleEnv.folders) "acct" 523 0 sampleEnv.now) :=
  claim1_remote_page_fetch csEmpty "INBOX" "acct" 1 20 0 sampleEnv 523 4
    (by decide) rfl (by decide) (by decide) (by decide)

/-- C5: after a failed initialization (db = none) every read returns an
empty result, every mutator leaves the state unchanged, and a page load
falls through to the direct remote fetch (no cache hit, no range error,
result taken from the remote window) without raising. -/
theorem claim5_store_noop (cs : CacheService) (hnone : cs.db = none)
    (folder accountId : String) (limit offset page pageSize prevTotal : Nat)
    (msgs : List EmailMessage) (u tc uc : Nat) (flags : List String)
    (now : Int) (env : LoadEnv) (total unseen : Nat)
    (hstat : env.status = .ok (total, unseen))
    (h1 : 1 ≤ total) (h2 : 1 ≤ page) (h3 : 1 ≤ pageSize) :
    getCachedMessages cs folder accountId limit offset = [] ∧
    getFolderMetadata cs folder accountId = none ∧
    getLastSyncTime cs folder accountId = none ∧
    updateMessages cs msgs folder accountId now = cs ∧
    updateFolderMetadata cs folder accountId tc uc now = cs ∧
    clearFolder cs folder accountId = cs ∧
    updateMessageFlags cs u folder accountId flags = cs ∧
    (loadMessages cs folder accountId page pageSize prevTotal env).fromCache
        = false ∧
    (loadMessages cs folder accountId page pageSize prevTotal env).errorRange
        = false ∧
    (loadMessages cs folder accountId page pageSize prevTotal env).messages
        = (sortByDateDesc (env.remote
            ((pageWindow total page pageSize).1,
             (pageWindow total page pageSize).2))).take pageSize := by
  have hempty : ∀ l o : Nat, getCachedMessages cs folder accountId l o = [] := by
    intro l o
    simp [getCachedMessages, hnone]
  have hred := loadMessages_remote cs folder accountId page pageSize prevTotal
    env total unseen (hempty _ _) hstat h1
  have hle := pageWindow_le total page pageSize h1 h2 h3
  have hok := remoteFetchPage_ok cs (resolveFolder folder env.folders) accountId
    pageSize total (pageWindow total page pageSize).1
    (pageWindow total page pageSize).2 env (by omega)
  refine ⟨hempty _ _, ?_, ?_, ?_, ?_, ?_, ?_, ?_, ?_, ?_⟩
  · simp [getFolderMetadata, hnone]
  · simp [getLastSyncTime, hnone]
  · simp [updateMessages, hnone]
  · simp [updateFolderMetadata, hnone]
  · simp [clearFolder, hnone]
  · simp [updateMessageFlags, hnone]
  · rw [hred]; exact hok.2.1
  · rw [hred]; exact hok.2.2.1
  · rw [hred]; exact hok.1

/-- Witness for C5: a failed store with the sample environment at page 1,
pageSize 20. -/
theorem claim5_store_noop_witness :
    getCachedMessages csNone "INBOX" "acct" 20 0 = [] ∧
    getFolderMetadata csNone "INBOX" "acct" = none ∧
    getLastSyncTime csNone "INBOX" "acct" = none ∧
    updateMessages csNone [sampleMsg 7 50] "INBOX" "acct" 42 = csNone ∧
    updateFolderMetadata csNone "INBOX" "acct" 1 0 42 = csNone ∧
    clearFolder csNone "INBOX" "acct" = csNone ∧
    updateMessageFlags csNone 7 "INBOX" "acct" ["\\Seen"] = csNone ∧
    (loadMessages csNone "INBOX" "acct" 1 20 0 sampleEnv).fromCache = false ∧
    (loadMessages csNone "INBOX" "acct" 1 20 0 sampleEnv).errorRange = false ∧
    (loadMessages csNone "INBOX" "acct" 1 20 0 sampleEnv).messages
        = (sortByDateDesc (sampleEnv.remote
            ((pageWindow 523 1 20).1, (pageWindow 523 1 20).2))).take 20 :=
  claim5_store_noop csNone rfl "INBOX" "acct" 20 0 1 20 0 [sampleMsg 7 50]
    7 1 0 ["\\Seen"] 42 sampleEnv 523 4 rfl (by decide) (by decide) (by decide)

/-! ## Initial-load batching lemmas -/

/-- Zero case of the backward walk. -/
theorem backfillRanges_zero : backfillRanges 0 = [] := rfl

/-- Successor case of the backward walk. -/
theorem backfillRanges_succ (e : Nat) :
    backfillRanges (e + 1)
      = (max 1 (e + 1 - 499), e + 1) :: backfillRanges (e + 1 - 500) := by
  rw [backfillRanges_eq]

/-- Head of a nonempty backward walk. -/
theorem backfillRanges_head (n : Nat) (h : 1 ≤ n) :
    (backfillRanges n).head? = some (max 1 (n - 499), n) := by
  cases n with
  | zero => omega
  | succ m => rw [backfillRanges_succ]; rfl

/-- Every range of the backward walk is within bounds and at most 500
wide. -/
theorem backfillRanges_mem (n : Nat) :
    ∀ r ∈ backfillRanges n, 1 ≤ r.1 ∧ r.1 ≤ r.2 ∧ r.2 + 1 - r.1 ≤ 500 ∧ r.2 ≤ n := by
  induction n using Nat.strong_induction_on with
  | _ n ih =>
    cases n with
    | zero => intro r hr; rw [backfillRanges_zero] at hr; simp at hr
    | succ m =>
      intro r hr
      rw [backfillRanges_succ] at hr
      rcases List.mem_cons.mp hr with h | h
      · subst h; refine ⟨?_, ?_, ?_, ?_⟩ <;> omega
      · have := ih (m + 1 - 500) (by omega) r h
        omega

/-- The backward walk always ends with a range starting at sequence 1. -/
theorem backfillRanges_last (n : Nat) (h : 1 ≤ n) :
    (backfillRanges n).getLast?.map Prod.fst = some 1 := by
  induction n using Nat.strong_induction_on with
  | _ n ih =>
    cases n with
    | zero => omega
    | succ m =>
      rw [backfillRanges_succ]
      by_cases hrest : m + 1 - 500 = 0
      · rw [hrest]
        rw [backfillRanges_zero]
        simp
        omega
      · have h1 : 1 ≤ m + 1 - 500 := by omega
        have hlast := ih (m + 1 - 500) (by omega) h1
        have hhead := backfillRanges_head (m + 1 - 500) h1
        rcases hx : backfillRanges (m + 1 - 500) with _ | ⟨c, t⟩
        · rw [hx] at hhead; simp at hhead
        · rw [hx] at hlast
          rw [List.getLast?_cons_cons]
          exact hlast

/-- Consecutive ranges of the backward walk are contiguous and
descending. -/
theorem backfillRanges_chain (n : Nat) :
    List.Chain' (fun a b : Nat × Nat => b.2 + 1 = a.1) (backfillRanges n) := by
  induction n using Nat.strong_induction_on with
  | _ n ih =>
    cases n with
    | zero => rw [backfillRanges_zero]; simp
    | succ m =>
      rw [backfillRanges_succ, List.chain'_cons']
      refine ⟨?_, ih (m + 1 - 500) (by omega)⟩
      intro b hb
      by_cases hrest : m + 1 - 500 = 0
      · rw [hrest] at hb
        rw [backfillRanges_zero] at hb
        simp at hb
      · have hhead := backfillRanges_head (m + 1 - 500) (by omega)
        rw [hhead] at hb
        simp only [Option.mem_def, Option.some.injEq] at hb
        subst hb
        simp only
        omega

/-- The accumulated list of the initial-load fold is the concatenation of
the fetched batches. -/
theorem initialLoadStep_fold_all (folder accountId : String)
    (remote : Int × Int → List EmailMessage) (now : Int)
    (rs : List (Nat × Nat)) (st : InitialLoadState) :
    ((rs.foldl (initialLoadStep folder accountId remote now) st).all
      = st.all ++ (rs.map (fun r => imapGetMessages remote r.1 r.2)).flatten) := by
  induction rs generalizing st with
  | nil => simp
  | cons r rs ih =>
    rw [List.foldl_cons, ih]
    have hstep : (initialLoadStep folder accountId remote now st r).all
        = st.all ++ imapGetMessages remote r.1 r.2 := by
      simp only [initialLoadStep]
      split <;> rfl
    rw [hstep]
    simp

/-- Every write the initial-load fold appends to the write log carries a
multiple of 1000 accumulated messages. -/
theorem initialLoadStep_fold_writes (folder accountId : String)
    (remote : Int × Int → List EmailMessage) (now : Int)
    (rs : List (Nat × Nat)) (st : InitialLoadState) :
    ∃ extra,
      (rs.foldl (initialLoadStep folder accountId remote now) st).writes
        = st.writes ++ extra ∧ ∀ w ∈ extra, w.length % 1000 = 0 := by
  induction rs generalizing st with
  | nil => exact ⟨[], by simp, by simp⟩
  | cons r rs ih =>
    rw [List.foldl_cons]
    obtain ⟨extra, hw, hm⟩ := ih (initialLoadStep folder accountId remote now st r)
    by_cases hc : (st.all.length + (imapGetMessages remote (r.1 : Int) (r.2 : Int)).length) % 1000 = 0
    · have hstep : (initialLoadStep folder accountId remote now st r).writes
          = st.writes ++ [st.all ++ imapGetMessages remote (r.1 : Int) (r.2 : Int)] := by
        simp [initialLoadStep, hc]
      refine ⟨(st.all ++ imapGetMessages remote (r.1 : Int) (r.2 : Int)) :: extra, ?_, ?_⟩
      · rw [hw, hstep, List.append_assoc]
        rfl
      · intro w hwmem
        rcases List.mem_cons.mp hwmem with h | h
        · subst h; simpa using hc
        · exact hm w h
    · have hstep : (initialLoadStep folder accountId remote now st r).writes
          = st.writes := by
        simp [initialLoadStep, hc]
      refine ⟨extra, ?_, hm⟩
      rw [hw, hstep]

/-- C7: the initial (empty-cache) load first requests the newest 50
sequence numbers — for a 523-message folder the range 474:523 followed by
1:473 — writes that first batch to the store at once (it is the head of the
write log), then walks backward in contiguous descending windows of at most
500 sequence numbers ending at sequence 1, accumulating exactly the
concatenation of the fetched batches and flushing to the store only at
multiples of 1000 accumulated messages. -/
theorem claim7_initial_load (total : Nat) (h : 1 ≤ total) (cs : CacheService)
    (folder accountId : String) (remote : Int × Int → List EmailMessage)
    (now : Int) :
    initialLoadRanges 523 = [(474, 523), (1, 473)] ∧
    (initialLoadRanges total).head? = some (max 1 (total - 49), total) ∧
    List.Chain' (fun a b : Nat × Nat => b.2 + 1 = a.1) (initialLoadRanges total) ∧
    (∀ r ∈ initialLoadRanges total, 1 ≤ r.1 ∧ r.1 ≤ r.2 ∧ r.2 + 1 - r.1 ≤ 500) ∧
    (initialLoadRanges total).getLast?.map Prod.fst = some 1 ∧
    (initialLoad cs folder accountId total remote now).all
      = ((initialLoadRanges total).map
          (fun r => imapGetMessages remote r.1 r.2)).flatten ∧
    (initialLoad cs folder accountId total remote now).writes.head?
      = some (imapGetMessages remote ((max 1 (total - 49) : Nat) : Int) (total : Int)) ∧
    (∀ w ∈ (initialLoad cs folder accountId total remote now).writes.tail,
      w.length % 1000 = 0) := by
  have hfs : max 1 (total - 50 + 1) = max 1 (total - 49) := by omega
  obtain ⟨extra, hw, hm⟩ := initialLoadStep_fold_writes folder accountId remote
    now (backfillRanges (max 1 (total - 50 + 1) - 1))
    { cache := updateMessages cs
        (imapGetMessages remote ((max 1 (total - 50 + 1) : Nat) : Int) (total : Int))
        folder accountId now
      all := imapGetMessages remote ((max 1 (total - 50 + 1) : Nat) : Int) (total : Int)
      writes := [imapGetMessages remote ((max 1 (total - 50 + 1) : Nat) : Int) (total : Int)] }
  have hinit : initialLoad cs folder accountId total remote now
      = (backfillRanges (max 1 (total - 50 + 1) - 1)).foldl
          (initialLoadStep folder accountId remote now)
          { cache := updateMessages cs
              (imapGetMessages remote ((max 1 (total - 50 + 1) : Nat) : Int) (total : Int))
              folder accountId now
            all := imapGetMessages remote ((max 1 (total - 50 + 1) : Nat) : Int) (total : Int)
            writes := [imapGetMessages remote ((max 1 (total - 50 + 1) : Nat) : Int) (total : Int)] } := rfl
  refine ⟨by decide, ?_, ?_, ?_, ?_, ?_, ?_, ?_⟩
  · rw [initialLoadRanges, hfs]
    rfl
  · rw [initialLoadRanges, List.chain'_cons']
    refine ⟨?_, backfillRanges_chain _⟩
    intro b hb
    by_cases hrest : max 1 (total - 50 + 1) - 1 = 0
    · rw [hrest] at hb
      rw [backfillRanges_zero] at hb
      simp at hb
    · rw [backfillRanges_head _ (by omega)] at hb
      simp only [Option.mem_def, Option.some.injEq] at hb
      subst hb
      simp only
      omega
  · intro r hr
    rw [initialLoadRanges] at hr
    rcases List.mem_cons.mp hr with h1 | h1
    · subst h1; refine ⟨?_, ?_, ?_⟩ <;> omega
    · have := backfillRanges_mem _ r h1
      omega
  · rw [initialLoadRanges]
    by_cases hrest : max 1 (total - 50 + 1) - 1 = 0
    · rw [hrest]
      rw [backfillRanges_zero]
      simp
      omega
    · have hlast := backfillRanges_last _ (by omega : 1 ≤ max 1 (total - 50 + 1) - 1)
      rcases hx : backfillRanges (max 1 (total - 50 + 1) - 1) with _ | ⟨c, t⟩
      · rw [hx] at hlast; simp at hlast
      · rw [hx] at hlast
        rw [List.getLast?_cons_cons]
        exact hlast
  · rw [hinit, initialLoadStep_fold_all, initialLoadRanges]
    simp
  · rw [hinit, hw, hfs]
    rfl
  · rw [hinit, hw]
    intro w hwmem
    exact hm w (by simpa using hwmem)

/-- Witness for C7 at the 523-message scenario. -/
theorem claim7_initial_load_witness :
    initialLoadRanges 523 = [(474, 523), (1, 473)] ∧
    (initialLoadRanges 523).head? = some (max 1 (523 - 49), 523) ∧
    List.Chain' (fun a b : Nat × Nat => b.2 + 1 = a.1) (initialLoadRanges 523) ∧
    (∀ r ∈ initialLoadRanges 523, 1 ≤ r.1 ∧ r.1 ≤ r.2 ∧ r.2 + 1 - r.1 ≤ 500) ∧
    (initialLoadRanges 523).getLast?.map Prod.fst = some 1 ∧
    (initialLoad csEmpty "INBOX" "acct" 523 sampleEnv.remote 42).all
      = ((initialLoadRanges 523).map
          (fun r => imapGetMessages sampleEnv.remote r.1 r.2)).flatten ∧
    (initialLoad csEmpty "INBOX" "acct" 523 sampleEnv.remote 42).writes.head?
      = some (imapGetMessages sampleEnv.remote ((max 1 (523 - 49) : Nat) : Int) ((523 : Nat) : Int)) ∧
    (∀ w ∈ (initialLoad csEmpty "INBOX" "acct" 523 sampleEnv.remote 42).writes.tail,
      w.length % 1000 = 0) :=
  claim7_initial_load 523 (by decide) csEmpty "INBOX" "acct" sampleEnv.remote 42

/-- Membership in the any-test of mapInsert is key membership. -/
theorem mapInsert_any_iff (l : List (Nat × EmailMessage)) (k : Nat) :
    l.any (fun p => p.1 == k) = true ↔ k ∈ mapKeys l := by
  simp only [mapKeys, List.any_eq_true, List.mem_map, beq_iff_eq]

/-- Keys after inserting an existing key. -/
theorem mapInsert_keys_existing (l : List (Nat × EmailMessage)) (k : Nat)
    (v : EmailMessage) (h : k ∈ mapKeys l) :
    mapKeys (mapInsert l k v) = mapKeys l := by
  rw [mapInsert, if_pos ((mapInsert_any_iff l k).mpr h)]
  rw [mapKeys, List.map_map, mapKeys]
  apply List.map_congr_left
  intro p _
  by_cases hp : p.1 = k
  · simp [hp]
  · simp [hp]

/-- Keys after inserting a new key. -/
theorem mapInsert_keys_new (l : List (Nat × EmailMessage)) (k : Nat)
    (v : EmailMessage) (h : ¬ k ∈ mapKeys l) :
    mapKeys (mapInsert l k v) = mapKeys l ++ [k] := by
  rw [mapInsert, if_neg]
  · simp [mapKeys]
  · intro hc
    exact h ((mapInsert_any_iff l k).mp hc)

/-- Key membership after an insertion. -/
theorem mapInsert_keys_mem (l : List (Nat × EmailMessage)) (k u : Nat)
    (v : EmailMessage) :
    u ∈ mapKeys (mapInsert l k v) ↔ u ∈ mapKeys l ∨ u = k := by
  by_cases h : k ∈ mapKeys l
  · rw [mapInsert_keys_existing l k v h]
    constructor
    · exact Or.inl
    · rintro (hu | rfl)
      · exact hu
      · exact h
  · rw [mapInsert_keys_new l k v h]
    simp

/-- Key membership after inserting a message list. -/
theorem mapInsertAll_keys_mem (msgs : List EmailMessage) :
    ∀ (l : List (Nat × EmailMessage)) (u : Nat),
      u ∈ mapKeys (mapInsertAll l msgs)
        ↔ u ∈ mapKeys l ∨ u ∈ msgs.filterMap truthyUid := by
  induction msgs with
  | nil => intro l u; simp [mapInsertAll]
  | cons m rest ih =>
    intro l u
    rw [mapInsertAll, List.foldl_cons]
    rcases hm : truthyUid m with _ | k
    · rw [show (rest.foldl (fun acc m => match truthyUid m with
            | some u => mapInsert acc u m
            | none => acc) l) = mapInsertAll l rest from rfl, ih]
      simp [List.filterMap_cons, hm]
    · rw [show (rest.foldl (fun acc m => match truthyUid m with
            | some u => mapInsert acc u m
            | none => acc) (mapInsert l k m)) = mapInsertAll (mapInsert l k m) rest from rfl,
          ih, mapInsert_keys_mem]
      simp [List.filterMap_cons, hm]
      tauto

/-- Unpacking of a truthy uid. -/
theorem truthyUid_eq (m : EmailMessage) (u : Nat) (h : truthyUid m = some u) :
    m.uid = some u ∧ u ≠ 0 := by
  have hx : ∃ v, m.uid = some v := by
    rcases hy : m.uid with _ | v
    · simp [truthyUid, hy] at h
    · exact ⟨v, rfl⟩
  obtain ⟨v, hv⟩ := hx
  by_cases h0 : v = 0
  · simp [truthyUid, hv, h0] at h
  · have hvu : v = u := by simpa [truthyUid, hv, h0] using h
    subst hvu
    exact ⟨hv, h0⟩

/-- Every entry of the uid map built by the merge pairs a key with a
message carrying that uid. -/
theorem mapInsert_entry_uid (l : List (Nat × EmailMessage)) (k : Nat)
    (v : EmailMessage) (hv : v.uid = some k)
    (hl : ∀ p ∈ l, (p : Nat × EmailMessage).2.uid = some p.1) :
    ∀ p ∈ mapInsert l k v, (p : Nat × EmailMessage).2.uid = some p.1 := by
  intro p hp
  rw [mapInsert] at hp
  by_cases h : l.any (fun p => p.1 == k) = true
  · rw [if_pos h] at hp
    obtain ⟨q, hq, he⟩ := List.mem_map.mp hp
    by_cases hqk : q.1 = k
    · rw [if_pos (by simp [hqk])] at he
      rw [← he]
      exact hv
    · rw [if_neg (by simp [hqk])] at he
      rw [← he]
      exact hl q hq
  · rw [if_neg h] at hp
    rcases List.mem_append.mp hp with h1 | h1
    · exact hl p h1
    · rw [List.mem_singleton.mp h1]
      exact hv

/-- Entry invariant for whole-list insertion. -/
theorem mapInsertAll_entry_uid (msgs : List EmailMessage) :
    ∀ (l : List (Nat × EmailMessage)),
      (∀ p ∈ l, (p : Nat × EmailMessage).2.uid = some p.1) →
      ∀ p ∈ mapInsertAll l msgs, (p : Nat × EmailMessage).2.uid = some p.1 := by
  induction msgs with
  | nil => intro l hl; exact hl
  | cons m rest ih =>
    intro l hl
    rw [mapInsertAll, List.foldl_cons]
    rcases hm : truthyUid m with _ | k
    · exact ih l hl
    · refine ih (mapInsert l k m) ?_
      exact mapInsert_entry_uid l k m (truthyUid_eq m k hm).1 hl

/-- The uids of the map values are its keys. -/
theorem values_filterMap_uid (l : List (Nat × EmailMessage))
    (hl : ∀ p ∈ l, (p : Nat × EmailMessage).2.uid = some p.1) :
    (l.map (·.2)).filterMap (·.uid) = mapKeys l := by
  induction l with
  | nil => rfl
  | cons p rest ih =>
    have hp := hl p (List.mem_cons_self p rest)
    rw [mapKeys, List.map_cons, List.map_cons, List.filterMap_cons, hp]
    rw [← mapKeys, ih (fun q hq => hl q (List.mem_cons_of_mem p hq))]

/-- Truthy uids coincide with uids on lists of positive-uid messages. -/
theorem filterMap_truthy_eq (msgs : List EmailMessage)
    (h : ∀ m ∈ msgs, ∃ u, m.uid = some u ∧ u ≠ 0) :
    msgs.filterMap truthyUid = msgs.filterMap (·.uid) := by
  induction msgs with
  | nil => rfl
  | cons m rest ih =>
    obtain ⟨u, hu, h0⟩ := h m (List.mem_cons_self m rest)
    rw [List.filterMap_cons, List.filterMap_cons, hu]
    rw [show truthyUid m = some u by simp [truthyUid, hu, h0]]
    rw [ih (fun q hq => h q (List.mem_cons_of_mem m hq))]

/-- Pair preservation: inserting other keys never removes an entry. -/
theorem mapInsert_mem_of_ne (l : List (Nat × EmailMessage)) (u k : Nat)
    (m v : EmailMessage) (hne : u ≠ k) (hmem : (u, m) ∈ l) :
    (u, m) ∈ mapInsert l k v := by
  rw [mapInsert]
  by_cases h : l.any (fun p => p.1 == k) = true
  · rw [if_pos h]
    refine List.mem_map.mpr ⟨(u, m), hmem, ?_⟩
    rw [if_neg (by simp [hne])]
  · rw [if_neg h]
    exact List.mem_append_left _ hmem

/-- Pair preservation through a whole insertion whose keys avoid u. -/
theorem mapInsertAll_mem_of_notin (msgs : List EmailMessage) :
    ∀ (l : List (Nat × EmailMessage)) (u : Nat) (m : EmailMessage),
      (u, m) ∈ l → ¬ u ∈ msgs.filterMap truthyUid →
      (u, m) ∈ mapInsertAll l msgs := by
  induction msgs with
  | nil => intro l u m hmem _; exact hmem
  | cons m0 rest ih =>
    intro l u m hmem hnot
    rw [mapInsertAll, List.foldl_cons]
    rcases hm : truthyUid m0 with _ | k
    · exact ih l u m hmem (by rw [List.filterMap_cons, hm] at hnot; exact hnot)
    · rw [List.filterMap_cons, hm] at hnot
      have hne : u ≠ k := by
        intro hc; exact hnot (by rw [hc]; exact List.mem_cons_self _ _)
      exact ih (mapInsert l k m0) u m (mapInsert_mem_of_ne l u k m m0 hne hmem)
        (fun hc => hnot (List.mem_cons_of_mem _ hc))

/-- A message whose truthy uid is fresh for the accumulator and unrepeated
in the remaining list ends up as an entry of the insertion. -/
theorem mapInsertAll_mem_self (msgs : List EmailMessage) :
    ∀ (l : List (Nat × EmailMessage)) (u : Nat) (m : EmailMessage),
      m ∈ msgs → truthyUid m = some u →
      (msgs.filterMap truthyUid).Nodup → ¬ u ∈ mapKeys l →
      (u, m) ∈ mapInsertAll l msgs := by
  induction msgs with
  | nil => intro l u m hmem; exact absurd hmem (List.not_mem_nil m)
  | cons m0 rest ih =>
    intro l u m hmem hu hnod hl
    rw [mapInsertAll, List.foldl_cons]
    rcases List.mem_cons.mp hmem with rfl | hmem0
    · rw [hu]
      rw [List.filterMap_cons, hu] at hnod
      have hfirst : (u, m) ∈ mapInsert l u m := by
        rw [mapInsert, if_neg]
        · exact List.mem_append_right _ (List.mem_singleton_self _)
        · intro hc
          exact hl ((mapInsert_any_iff l u).mp hc)
      exact mapInsertAll_mem_of_notin rest (mapInsert l u m) u m hfirst
        (List.nodup_cons.mp hnod).1
    · rcases hm0 : truthyUid m0 with _ | k
      · rw [List.filterMap_cons, hm0] at hnod
        exact ih l u m hmem0 hu hnod hl
      · rw [List.filterMap_cons, hm0] at hnod
        have hne : u ≠ k := by
          intro hc
          subst hc
          exact (List.nodup_cons.mp hnod).1
            (List.mem_filterMap.mpr ⟨m, hmem0, hu⟩)
        refine ih (mapInsert l k m0) u m hmem0 hu (List.nodup_cons.mp hnod).2 ?_
        rw [mapInsert_keys_mem]
        rintro (hc | hc)
        · exact hl hc
        · exact hne hc

/-- One unfolding step of the new-message filter. -/
theorem newMessagesOf_cons (cached : List EmailMessage) (m : EmailMessage)
    (rest : List EmailMessage) (u : Nat) (htr : truthyUid m = some u) :
    newMessagesOf cached (m :: rest)
      = if ((cached.filterMap (·.uid)).contains u) = true
        then newMessagesOf cached rest
        else m :: newMessagesOf cached rest := by
  rw [newMessagesOf, newMessagesOf, List.filter_cons]
  simp only [htr, existingUIDs]
  cases hin : (cached.filterMap (·.uid)).contains u
  · simp [hin]
  · simp [hin]

/-- Lists of messages that all carry a uid lose nothing to filterMap. -/
theorem filterMap_uid_length (l : List EmailMessage)
    (h : ∀ m ∈ l, ∃ u, m.uid = some u) :
    (l.filterMap (·.uid)).length = l.length := by
  induction l with
  | nil => rfl
  | cons m rest ih =>
    obtain ⟨u, hu⟩ := h m (List.mem_cons_self m rest)
    rw [List.filterMap_cons, hu, List.length_cons, List.length_cons,
      ih (fun q hq => h q (List.mem_cons_of_mem m hq))]

/-- New messages are fetched messages. -/
theorem newMessagesOf_subset (cached fetched : List EmailMessage) :
    ∀ m ∈ newMessagesOf cached fetched, m ∈ fetched := by
  intro m hm
  rw [newMessagesOf] at hm
  exact (List.mem_filter.mp hm).1

/-- The uids of the new-message list are the fetched uids outside the
cached uid set. -/
theorem newMessagesOf_filterMap (cached fetched : List EmailMessage)
    (hf : ∀ m ∈ fetched, ∃ u, m.uid = some u ∧ u ≠ 0) :
    (newMessagesOf cached fetched).filterMap (·.uid)
      = (fetched.filterMap (·.uid)).filter
          (fun u => !((cached.filterMap (·.uid)).contains u)) := by
  induction fetched with
  | nil => rfl
  | cons m rest ih =>
    obtain ⟨u, hu, h0⟩ := hf m (List.mem_cons_self m rest)
    have htr : truthyUid m = some u := by simp [truthyUid, hu, h0]
    have ih' := ih (fun q hq => hf q (List.mem_cons_of_mem m hq))
    rw [newMessagesOf_cons cached m rest u htr, List.filterMap_cons, hu,
      List.filter_cons]
    cases hin : (cached.filterMap (·.uid)).contains u
    · rw [if_neg (by simp : ¬ (false = true)),
        if_pos (by simp : (!false) = true), List.filterMap_cons, hu, ih']
    · rw [if_pos (rfl : true = true),
        if_neg (by simp : ¬ ((!true) = true)), ih']

/-- C2: in the steady-state merge, the merged list's uid set is exactly the
union of the cached and fetched uid sets (no cached uid is lost; a fetched
record replaces a cached one only on a uid collision), a cached message
whose uid is outside the fetched window is carried forward untouched, and
the number of messages reported new is exactly the cardinality of the
fetched-minus-cached uid set. -/
theorem claim2_steady_merge (cached fetched : List EmailMessage)
    (hc : ∀ m ∈ cached, ∃ u, m.uid = some u ∧ u ≠ 0)
    (hf : ∀ m ∈ fetched, ∃ u, m.uid = some u ∧ u ≠ 0)
    (hcn : (cached.filterMap (·.uid)).Nodup)
    (hfn : (fetched.filterMap (·.uid)).Nodup) :
    ((regularRefreshMerge cached fetched).1.filterMap (·.uid)).toFinset
        = (cached.filterMap (·.uid)).toFinset
            ∪ (fetched.filterMap (·.uid)).toFinset ∧
    (regularRefreshMerge cached fetched).2.length
        = ((fetched.filterMap (·.uid)).toFinset
            \ (cached.filterMap (·.uid)).toFinset).card ∧
    (∀ m ∈ cached, ∀ u, m.uid = some u → u ∉ fetched.filterMap (·.uid) →
      m ∈ (regularRefreshMerge cached fetched).1) := by
  have hT := filterMap_truthy_eq cached hc
  have hTf := filterMap_truthy_eq fetched hf
  by_cases hnew : (newMessagesOf cached fetched).length > 0
  · have hmerge1 : (regularRefreshMerge cached fetched).1
        = (mapInsertAll (mapInsertAll [] cached) fetched).map (·.2) := by
      simp only [regularRefreshMerge]
      rw [if_pos hnew]
    have hmerge2 : (regularRefreshMerge cached fetched).2
        = newMessagesOf cached fetched := by
      simp only [regularRefreshMerge]
      rw [if_pos hnew]
    have hentries : ∀ p ∈ mapInsertAll (mapInsertAll [] cached) fetched,
        (p : Nat × EmailMessage).2.uid = some p.1 :=
      mapInsertAll_entry_uid fetched _
        (mapInsertAll_entry_uid cached [] (by simp))
    have hvals := values_filterMap_uid _ hentries
    have hkeys : ∀ u, u ∈ mapKeys (mapInsertAll (mapInsertAll [] cached) fetched)
        ↔ u ∈ cached.filterMap (·.uid) ∨ u ∈ fetched.filterMap (·.uid) := by
      intro u
      rw [mapInsertAll_keys_mem, mapInsertAll_keys_mem, hT, hTf]
      simp [mapKeys]
    refine ⟨?_, ?_, ?_⟩
    · ext u
      rw [hmerge1, List.mem_toFinset, hvals, hkeys]
      simp
    · have hlen : (newMessagesOf cached fetched).length
          = ((newMessagesOf cached fetched).filterMap (·.uid)).length := by
        rw [filterMap_uid_length]
        intro m hm
        obtain ⟨u, hu, _⟩ := hf m (newMessagesOf_subset cached fetched m hm)
        exact ⟨u, hu⟩
      rw [hmerge2, hlen, newMessagesOf_filterMap cached fetched hf]
      have hdiff : (fetched.filterMap (·.uid)).toFinset
            \ (cached.filterMap (·.uid)).toFinset
          = ((fetched.filterMap (·.uid)).filter
              (fun u => !((cached.filterMap (·.uid)).contains u))).toFinset := by
        ext x
        simp [List.mem_filter, Finset.mem_sdiff]
      rw [hdiff, List.toFinset_card_of_nodup (hfn.filter _)]
    · intro m hm u hu hnotin
      obtain ⟨u2, hu2, h02⟩ := hc m hm
      have huu : u2 = u := by rw [hu] at hu2; exact (Option.some.injEq _ _).mp hu2.symm
      subst huu
      have htr : truthyUid m = some u2 := by simp [truthyUid, hu2, h02]
      have hstep1 : (u2, m) ∈ mapInsertAll [] cached := by
        refine mapInsertAll_mem_self cached [] u2 m hm htr ?_ (by simp [mapKeys])
        rw [hT]; exact hcn
      have hstep2 : (u2, m) ∈ mapInsertAll (mapInsertAll [] cached) fetched := by
        refine mapInsertAll_mem_of_notin fetched _ u2 m hstep1 ?_
        rw [hTf]; exact hnotin
      rw [hmerge1]
      exact List.mem_map.mpr ⟨(u2, m), hstep2, rfl⟩
  · have hnil : newMessagesOf cached fetched = [] := by
      rcases hx : newMessagesOf cached fetched with _ | ⟨a, b⟩
      · rfl
      · rw [hx] at hnew; simp at hnew
    have hmergeEq : regularRefreshMerge cached fetched
        = (cached, newMessagesOf cached fetched) := by
      simp only [regularRefreshMerge]
      rw [if_neg hnew]
    have hsub : ∀ u ∈ fetched.filterMap (·.uid), u ∈ cached.filterMap (·.uid) := by
      intro u hu
      obtain ⟨m, hm, hum⟩ := List.mem_filterMap.mp hu
      obtain ⟨u2, hu2, h02⟩ := hf m hm
      have huu : u2 = u := by
        rw [hum] at hu2
        exact ((Option.some.injEq _ _).mp hu2).symm
      subst huu
      have htr : truthyUid m = some u2 := by simp [truthyUid, hu2, h02]
      have hpred := List.filter_eq_nil_iff.mp hnil m hm
      rw [htr] at hpred
      have hcont : (existingUIDs cached).contains u2 = true := by
        simpa using hpred
      rw [existingUIDs] at hcont
      simpa using hcont
    refine ⟨?_, ?_, ?_⟩
    · rw [hmergeEq]
      ext u
      simp only [Finset.mem_union, List.mem_toFinset]
      constructor
      · exact Or.inl
      · rintro (h | h)
        · exact h
        · exact hsub u h
    · rw [hmergeEq]
      simp only [hnil, List.length_nil]
      symm
      rw [Finset.card_eq_zero, Finset.sdiff_eq_empty_iff_subset]
      intro x hx
      rw [List.mem_toFinset] at hx ⊢
      exact hsub x hx
    · intro m hm u _ _
      rw [hmergeEq]
      exact hm

/-- Witness for C2: two cached messages, one colliding and one genuinely
new fetched message. -/
theorem claim2_steady_merge_witness :
    (((regularRefreshMerge [sampleMsg 1 10, sampleMsg 2 20]
          [sampleMsg 2 21, sampleMsg 3 30]).1.filterMap (·.uid)).toFinset
        = ([sampleMsg 1 10, sampleMsg 2 20].filterMap (·.uid)).toFinset
            ∪ ([sampleMsg 2 21, sampleMsg 3 30].filterMap (·.uid)).toFinset) ∧
    ((regularRefreshMerge [sampleMsg 1 10, sampleMsg 2 20]
          [sampleMsg 2 21, sampleMsg 3 30]).2.length
        = (([sampleMsg 2 21, sampleMsg 3 30].filterMap (·.uid)).toFinset
            \ ([sampleMsg 1 10, sampleMsg 2 20].filterMap (·.uid)).toFinset).card) ∧
    (∀ m ∈ [sampleMsg 1 10, sampleMsg 2 20], ∀ u, m.uid = some u →
      u ∉ [sampleMsg 2 21, sampleMsg 3 30].filterMap (·.uid) →
      m ∈ (regularRefreshMerge [sampleMsg 1 10, sampleMsg 2 20]
            [sampleMsg 2 21, sampleMsg 3 30]).1) :=
  claim2_steady_merge [sampleMsg 1 10, sampleMsg 2 20]
    [sampleMsg 2 21, sampleMsg 3 30]
    (by decide) (by decide) (by decide) (by decide)

/-- First-match behaviour of the alias resolution loop. -/
theorem resolveFolder_first_match (folder : String) (pre post : List String)
    (v : String) (hv : folderMatches (toUpper folder) (toUpper v) = true)
    (hpre : ∀ x ∈ pre, folderMatches (toUpper folder) (toUpper x) = false) :
    resolveFolder folder (pre ++ v :: post) = v := by
  induction pre with
  | nil =>
    simp only [resolveFolder, List.nil_append, List.find?_cons, hv]
  | cons x rest ih =>
    have hx := hpre x (List.mem_cons_self x rest)
    have ihr := ih (fun y hy => hpre y (List.mem_cons_of_mem x hy))
    simp only [resolveFolder, List.cons_append, List.find?_cons, hx]
    simp only [resolveFolder] at ihr
    exact ihr

/-- Counterexample to C8: the canonicalization is not applied before every
cache operation.  With one message cached under the server name Sent Mail,
a page load requested as Sent reads the cache under the raw name Sent,
misses (although the canonical key holds data), and goes to the remote
fetch — the initial cached-page read of loadMessages uses the unresolved
folder name while the metadata read and write-back use the resolved one. -/
theorem claim8_folder_alias_cx :
    resolveFolder "Sent" ["Sent Mail"] = "Sent Mail" ∧
    getCachedMessages csSentMail "Sent Mail" "acct" 20 0 ≠ [] ∧
    getCachedMessages csSentMail "Sent" "acct" 20 0 = [] ∧
    (loadMessages csSentMail "Sent" "acct" 1 20 0 envSentMail).fromCache = false := by
  refine ⟨by decide, by decide, by decide, by decide⟩

/-- C8 as amended: the alias table spellings of Sent, Deleted, Junk and
Trash all match, the resolution returns the first live folder matching the
requested logical name case-insensitively (hence one single key per
account folder list), and the remote path of a page load resolves once and
uses that one name for the folder-status fetch, the range fetch and the
cache write-back; but the initial cached-page read of loadMessages (and
the refresh path) address the cache with the raw requested name instead. -/
theorem claim8_folder_alias (folder : String) (pre post : List String)
    (v : String) (hv : folderMatches (toUpper folder) (toUpper v) = true)
    (hpre : ∀ x ∈ pre, folderMatches (toUpper folder) (toUpper x) = false)
    (cs : CacheService) (accountId : String)
    (page pageSize prevTotal : Nat) (env : LoadEnv) (total unseen : Nat)
    (hcache : getCachedMessages cs folder accountId pageSize
      ((page - 1) * pageSize) = [])
    (hstat : env.status = .ok (total, unseen)) (h1 : 1 ≤ total) :
    resolveFolder folder (pre ++ v :: post) = v ∧
    (folderMatches "SENT" "SENT" = true ∧
     folderMatches "SENT" "SENT MAIL" = true ∧
     folderMatches "SENT" "SENT MESSAGES" = true ∧
     folderMatches "DELETED" "DELETED" = true ∧
     folderMatches "DELETED" "DELETED MESSAGES" = true ∧
     folderMatches "DELETED" "DELETED ITEMS" = true ∧
     folderMatches "JUNK" "JUNK" = true ∧
     folderMatches "JUNK" "JUNK E-MAIL" = true ∧
     folderMatches "JUNK" "JUNK MAIL" = true ∧
     folderMatches "TRASH" "TRASH" = true ∧
     folderMatches "TRASH" "DELETED" = true) ∧
    loadMessages cs folder accountId page pageSize prevTotal env
      = remoteFetchPage cs (resolveFolder folder env.folders) accountId
          pageSize total (pageWindow total page pageSize).1
          (pageWindow total page pageSize).2 env := by
  refine ⟨resolveFolder_first_match folder pre post v hv hpre, by decide, ?_⟩
  exact loadMessages_remote cs folder accountId page pageSize prevTotal env
    total unseen hcache hstat h1

/-- Witness for the amended C8: the server spelling Sent Mail wins for a
requested Sent, on the alias fixture. -/
theorem claim8_folder_alias_witness :
    resolveFolder "Sent" (["INBOX"] ++ "Sent Mail" :: ["Drafts"]) = "Sent Mail" ∧
    (folderMatches "SENT" "SENT" = true ∧
     folderMatches "SENT" "SENT MAIL" = true ∧
     folderMatches "SENT" "SENT MESSAGES" = true ∧
     folderMatches "DELETED" "DELETED" = true ∧
     folderMatches "DELETED" "DELETED MESSAGES" = true ∧
     folderMatches "DELETED" "DELETED ITEMS" = true ∧
     folderMatches "JUNK" "JUNK" = true ∧
     folderMatches "JUNK" "JUNK E-MAIL" = true ∧
     folderMatches "JUNK" "JUNK MAIL" = true ∧
     folderMatches "TRASH" "TRASH" = true ∧
     folderMatches "TRASH" "DELETED" = true) ∧
    loadMessages csSentMail "Sent" "acct" 1 20 0 envSentMail
      = remoteFetchPage csSentMail (resolveFolder "Sent" envSentMail.folders)
          "acct" 20 1 (pageWindow 1 1 20).1 (pageWindow 1 1 20).2 envSentMail :=
  claim8_folder_alias "Sent" ["INBOX"] ["Drafts"] "Sent Mail" (by decide)
    (by decide) csSentMail "acct" 1 20 0 envSentMail 1 0 (by decide) rfl
    (by decide)

/-- Counterexample to C9: clearFolder does not leave the attachment rows of
the cleared key unchanged — the attachments table's ON DELETE CASCADE
foreign key removes them together with their parent message rows. -/
theorem claim9_clear_folder_cx :
    (clearFolder csInbox "INBOX" "acct").db.map CacheDB.attachments
        = some [] ∧
    csInbox.db.map CacheDB.attachments = some [inboxAttRow] ∧
    (clearFolder csInbox "INBOX" "acct").db.map CacheDB.attachments
        ≠ csInbox.db.map CacheDB.attachments := by
  refine ⟨by decide, by decide, by decide⟩

/-- C9 as amended: clearFolder deletes exactly the messages rows of the
(folder, account) key and, through the cascade, the attachment rows whose
parent message row was deleted; every other attachment row survives, the
folders table is untouched, and an immediately following getFolderMetadata
returns the same values as before. -/
theorem claim9_clear_folder (cs : CacheService) (db : CacheDB)
    (h : cs.db = some db) (f a f2 a2 : String) :
    getFolderMetadata (clearFolder cs f a) f2 a2
        = getFolderMetadata cs f2 a2 ∧
    (clearFolder cs f a).db.map CacheDB.folders = some db.folders ∧
    (clearFolder cs f a).db.map CacheDB.messages
        = some (db.messages.filter
            (fun r => !(r.folder_id == f && r.account_id == a))) ∧
    (∀ att ∈ db.attachments,
      ¬ (∃ r ∈ db.messages, (r.folder_id == f && r.account_id == a) = true ∧
          rowKeyIs att.message_uid att.folder_id att.account_id r = true) →
      att ∈ (clearFolder cs f a).db.elim [] CacheDB.attachments) ∧
    (∀ att ∈ (clearFolder cs f a).db.elim [] CacheDB.attachments,
      att ∈ db.attachments) := by
  refine ⟨?_, ?_, ?_, ?_, ?_⟩
  · simp [getFolderMetadata, clearFolder, h]
  · simp [clearFolder, h]
  · simp [clearFolder, h]
  · intro att hatt hno
    rw [clearFolder, h]
    simp only [Option.elim_some]
    refine List.mem_filter.mpr ⟨hatt, ?_⟩
    rw [Bool.not_eq_true', List.any_eq_false]
    intro r hr hcon
    obtain ⟨h1, h2⟩ := Bool.and_eq_true _ _ |>.mp hcon
    exact hno ⟨r, hr, h1, h2⟩
  · intro att hatt
    rw [clearFolder, h] at hatt
    simp only [Option.elim_some] at hatt
    exact (List.mem_filter.mp hatt).1

/-- Witness for the amended C9 on the INBOX fixture. -/
theorem claim9_clear_folder_witness :
    getFolderMetadata (clearFolder csInbox "INBOX" "acct") "INBOX" "acct"
        = getFolderMetadata csInbox "INBOX" "acct" ∧
    (clearFolder csInbox "INBOX" "acct").db.map CacheDB.folders
        = some [inboxFolderRow] ∧
    (clearFolder csInbox "INBOX" "acct").db.map CacheDB.messages
        = some ([inboxRow].filter
            (fun r => !(r.folder_id == "INBOX" && r.account_id == "acct"))) ∧
    (∀ att ∈ [inboxAttRow],
      ¬ (∃ r ∈ [inboxRow], (r.folder_id == "INBOX" && r.account_id == "acct") = true ∧
          rowKeyIs att.message_uid att.folder_id att.account_id r = true) →
      att ∈ (clearFolder csInbox "INBOX" "acct").db.elim [] CacheDB.attachments) ∧
    (∀ att ∈ (clearFolder csInbox "INBOX" "acct").db.elim [] CacheDB.attachments,
      att ∈ [inboxAttRow]) :=
  claim9_clear_folder csInbox
    { messages := [inboxRow], folders := [inboxFolderRow]
      attachments := [inboxAttRow] }
    rfl "INBOX" "acct" "INBOX" "acct"

/-! ## Flag string round trips -/

/-- Splitting never yields the empty field list. -/
theorem splitCommaChars_ne_nil (l : List Char) : splitCommaChars l ≠ [] := by
  induction l with
  | nil => simp [splitCommaChars]
  | cons c cs ih =>
    rw [splitCommaChars]
    by_cases hc : c = ','
    · simp [hc]
    · rw [if_neg hc]
      rcases hx : splitCommaChars cs with _ | ⟨h, t⟩
      · exact absurd hx ih
      · simp

/-- Joining the split of a character list restores it. -/
theorem joinCommaChars_splitCommaChars (l : List Char) :
    joinCommaChars (splitCommaChars l) = l := by
  induction l with
  | nil => rfl
  | cons c cs ih =>
    rw [splitCommaChars]
    by_cases hc : c = ','
    · rw [if_pos hc]
      rcases hx : splitCommaChars cs with _ | ⟨h, t⟩
      · exact absurd hx (splitCommaChars_ne_nil cs)
      · rw [joinCommaChars, ← hx, ih, hc]
        simp
    · rw [if_neg hc]
      rcases hx : splitCommaChars cs with _ | ⟨h, t⟩
      · exact absurd hx (splitCommaChars_ne_nil cs)
      · rw [hx] at ih
        cases t with
        | nil =>
          rw [joinCommaChars]
          rw [joinCommaChars] at ih
          rw [ih]
        | cons y t2 =>
          rw [joinCommaChars, List.cons_append]
          rw [joinCommaChars] at ih
          rw [ih]

/-- A comma-free character list splits into itself alone. -/
theorem splitCommaChars_of_no_comma (l : List Char)
    (h : ¬ ',' ∈ l) : splitCommaChars l = [l] := by
  induction l with
  | nil => rfl
  | cons c cs ih =>
    rw [splitCommaChars,
      if_neg (fun hc => h (by rw [← hc]; exact List.mem_cons_self c cs)),
      ih (fun hc => h (List.mem_cons_of_mem c hc))]

/-- Splitting past a comma separator peels one field. -/
theorem splitCommaChars_append (x r : List Char) (h : ¬ ',' ∈ x) :
    splitCommaChars (x ++ ',' :: r) = x :: splitCommaChars r := by
  induction x with
  | nil => simp [splitCommaChars]
  | cons c cs ih =>
    have hc : ¬ c = ',' :=
      fun he => h (by rw [← he]; exact List.mem_cons_self c cs)
    rw [List.cons_append, splitCommaChars, if_neg hc,
      ih (fun hmem => h (List.mem_cons_of_mem c hmem))]

/-- Splitting a join restores the fields when they are comma-free and the
join is applied to at least one field. -/
theorem splitCommaChars_joinCommaChars (parts : List (List Char))
    (hne : parts ≠ []) (h : ∀ p ∈ parts, ¬ ',' ∈ p) :
    splitCommaChars (joinCommaChars parts) = parts := by
  induction parts with
  | nil => exact absurd rfl hne
  | cons x rest ih =>
    cases rest with
    | nil =>
      rw [joinCommaChars, splitCommaChars_of_no_comma x
        (h x (List.mem_cons_self x []))]
    | cons y t =>
      rw [joinCommaChars, splitCommaChars_append x _
        (h x (List.mem_cons_self x (y :: t))),
        ih (by simp) (fun p hp => h p (List.mem_cons_of_mem x hp))]

/-- Structure eta for strings. -/
theorem stringMk_data (s : String) : String.mk s.data = s := rfl

/-- Mapping back and forth through the String wrapper is the identity. -/
theorem map_data_map_mk (ls : List (List Char)) :
    (ls.map String.mk).map String.data = ls := by
  induction ls with
  | nil => rfl
  | cons a t ih =>
    rw [List.map_cons, List.map_cons, ih]

/-- Mapping forth and back through the String wrapper is the identity. -/
theorem map_mk_map_data (ls : List String) :
    (ls.map String.data).map String.mk = ls := by
  induction ls with
  | nil => rfl
  | cons a t ih =>
    rw [List.map_cons, List.map_cons, ih, stringMk_data]

/-- Deserializing a serialized flag string is the identity. -/
theorem joinFlags_splitFlags (s : String) : joinFlags (splitFlags s) = s := by
  by_cases hs : s = ""
  · rw [hs]; rfl
  · rw [splitFlags, if_neg hs, joinFlags, map_data_map_mk,
      joinCommaChars_splitCommaChars, stringMk_data]

/-- Serializing then deserializing a comma-free, non-degenerate flag list
is the identity. -/
theorem splitFlags_joinFlags (fs : List String)
    (hcomma : ∀ f ∈ fs, ¬ ',' ∈ (f : String).data) (hdeg : fs ≠ [""]) :
    splitFlags (joinFlags fs) = fs := by
  cases fs with
  | nil => rfl
  | cons f rest =>
    have hne : joinFlags (f :: rest) ≠ "" := by
      intro hc
      have hdat : joinCommaChars ((f :: rest).map String.data) = [] := by
        have := congrArg String.data hc
        exact this
      cases rest with
      | nil =>
        rw [List.map_cons, List.map_nil, joinCommaChars] at hdat
        exact hdeg (by rw [show f = "" from congrArg String.mk hdat])
      | cons g t =>
        rw [List.map_cons, List.map_cons, joinCommaChars] at hdat
        exact absurd hdat (by simp)
    rw [splitFlags, if_neg hne, joinFlags]
    have hsplit := splitCommaChars_joinCommaChars ((f :: rest).map String.data)
      (by simp)
      (by
        intro p hp
        obtain ⟨g, hg, hgp⟩ := List.mem_map.mp hp
        rw [← hgp]
        exact hcomma g hg)
    rw [show String.data (String.mk (joinCommaChars ((f :: rest).map String.data)))
        = joinCommaChars ((f :: rest).map String.data) from rfl, hsplit]
    exact map_mk_map_data (f :: rest)

/-! ## Write-then-read round trip -/

/-- The upserted row is in the table afterwards. -/
theorem upsertMessageRow_mem (rows : List MessageRow) (r : MessageRow) :
    r ∈ upsertMessageRow rows r := by
  rw [upsertMessageRow]
  by_cases h : rows.any (rowKeyIs r.uid r.folder_id r.account_id) = true
  · rw [if_pos h]
    obtain ⟨x, hx, hkey⟩ := List.any_eq_true.mp h
    exact List.mem_map.mpr ⟨x, hx, by rw [if_pos hkey]⟩
  · rw [if_neg h]
    exact List.mem_append_right _ (List.mem_singleton_self r)

/-- Rows whose key differs from the upserted one survive the upsert. -/
theorem upsertMessageRow_mem_preserve (rows : List MessageRow)
    (r x : MessageRow) (hx : x ∈ rows)
    (hne : rowKeyIs r.uid r.folder_id r.account_id x = false) :
    x ∈ upsertMessageRow rows r := by
  rw [upsertMessageRow]
  by_cases h : rows.any (rowKeyIs r.uid r.folder_id r.account_id) = true
  · rw [if_pos h]
    exact List.mem_map.mpr ⟨x, hx, by rw [if_neg (by rw [hne]; simp)]⟩
  · rw [if_neg h]
    exact List.mem_append_left _ hx

/-- Messages-table effect of one transaction iteration. -/
theorem applyMessage_messages (folderId accountId : String) (now : Int)
    (db : CacheDB) (m : EmailMessage) (u : Nat) (hu : m.uid = some u) :
    (applyMessage folderId accountId now db m).messages
      = upsertMessageRow db.messages (msgToRow m folderId accountId now u) := by
  simp only [applyMessage, hu]
  rcases hatt : m.attachments with _ | atts
  · rfl
  · by_cases hlen : atts.length > 0 <;> simp [hlen]

/-- A row keyed apart from every inserted message survives the whole
transaction. -/
theorem foldl_applyMessage_preserve (folderId accountId : String) (now : Int)
    (msgs : List EmailMessage) :
    ∀ (db : CacheDB) (row : MessageRow), row ∈ db.messages →
      (∀ x ∈ msgs, ∀ v, x.uid = some v →
        rowKeyIs v folderId accountId row = false) →
      row ∈ (msgs.foldl (applyMessage folderId accountId now) db).messages := by
  induction msgs with
  | nil => intro db row hrow _; exact hrow
  | cons x rest ih =>
    intro db row hrow hkeys
    rw [List.foldl_cons]
    refine ih (applyMessage folderId accountId now db x) row ?_
      (fun y hy => hkeys y (List.mem_cons_of_mem x hy))
    rcases hx : x.uid with _ | v
    · rw [show applyMessage folderId accountId now db x = db by
        rw [applyMessage, hx]]
      exact hrow
    · rw [applyMessage_messages folderId accountId now db x v hx]
      exact upsertMessageRow_mem_preserve _ _ row hrow
        (hkeys x (List.mem_cons_self x rest) v hx)

/-- The row of a written message is in the table after the transaction,
provided the batch has pairwise distinct uids. -/
theorem foldl_applyMessage_row (folderId accountId : String) (now : Int)
    (msgs : List EmailMessage) :
    ∀ (db : CacheDB) (m : EmailMessage) (u : Nat), m ∈ msgs →
      m.uid = some u → (msgs.filterMap (·.uid)).Nodup →
      msgToRow m folderId accountId now u
        ∈ (msgs.foldl (applyMessage folderId accountId now) db).messages := by
  induction msgs with
  | nil => intro db m u hm; exact absurd hm (List.not_mem_nil m)
  | cons x rest ih =>
    intro db m u hm hu hnodup
    rw [List.foldl_cons]
    rcases List.mem_cons.mp hm with rfl | hmr
    · refine foldl_applyMessage_preserve folderId accountId now rest
        (applyMessage folderId accountId now db m)
        (msgToRow m folderId accountId now u)
        (by
          rw [applyMessage_messages folderId accountId now db m u hu]
          exact upsertMessageRow_mem _ _) ?_
      intro y hy v hv
      have hvne : v ≠ u := by
        rw [List.filterMap_cons, hu] at hnodup
        intro hc
        subst hc
        exact (List.nodup_cons.mp hnodup).1
          (List.mem_filterMap.mpr ⟨y, hy, hv⟩)
      rw [rowKeyIs]
      simp [msgToRow, hvne.symm]
    · rw [List.filterMap_cons] at hnodup
      rcases hx : x.uid with _ | v
      · rw [hx] at hnodup
        exact ih (applyMessage folderId accountId now db x) m u hmr hu hnodup
      · rw [hx] at hnodup
        exact ih (applyMessage folderId accountId now db x) m u hmr hu
          (List.nodup_cons.mp hnodup).2

/-- Counterexample to C4: a remote message with an empty subject (the IMAP
parser produces parsed.subject OR empty) is read back from the cache with
subject No subject, not with its own subject. -/
theorem claim4_roundtrip_cx :
    ((getCachedMessages (updateMessages csEmpty
        [{ sampleMsg 1 100 with subject := "" }] "INBOX" "acct" 7)
        "INBOX" "acct" 50 0).map (fun r => (r.uid, r.subject)))
      = [(some 1, "(No subject)")] ∧
    ({ sampleMsg 1 100 with subject := "" } : EmailMessage).subject = "" ∧
    ¬ (∀ r ∈ getCachedMessages (updateMessages csEmpty
          [{ sampleMsg 1 100 with subject := "" }] "INBOX" "acct" 7)
          "INBOX" "acct" 50 0,
        r.subject = ({ sampleMsg 1 100 with subject := "" } : EmailMessage).subject) := by
  refine ⟨by decide, by decide, by decide⟩

/-- C4 as amended: a message fetched from the remote folder and written by
updateMessages is retrievable from a covering getCachedMessages page with
identical uid, date and flags, and with identical subject whenever its
subject is non-empty (an empty subject is stored and returned as
No subject); the flag list is assumed comma-free and not the degenerate
singleton empty string, which IMAP flags always satisfy. -/
theorem claim4_roundtrip (cs : CacheService) (db : CacheDB)
    (hdb : cs.db = some db) (msgs : List EmailMessage) (m : EmailMessage)
    (u : Nat) (folderId accountId : String) (now : Int) (limit : Nat)
    (hm : m ∈ msgs) (hu : m.uid = some u)
    (hall : ∀ x ∈ msgs, x.uid.isSome = true)
    (hnodup : (msgs.filterMap (·.uid)).Nodup)
    (hsubj : m.subject ≠ "")
    (hfl1 : ∀ flg ∈ m.flags, ¬ ',' ∈ (flg : String).data)
    (hfl2 : m.flags ≠ [""])
    (hlimit : ((updateMessages cs msgs folderId accountId now).db.elim []
        CacheDB.messages).length ≤ limit) :
    ∃ r ∈ getCachedMessages (updateMessages cs msgs folderId accountId now)
        folderId accountId limit 0,
      r.uid = some u ∧ r.subject = m.subject ∧ r.date = m.date ∧
      r.flags = m.flags := by
  have hallb : msgs.all (fun m => m.uid.isSome) = true :=
    List.all_eq_true.mpr hall
  have hupd : updateMessages cs msgs folderId accountId now
      = { db := some (msgs.foldl (applyMessage folderId accountId now) db) } := by
    simp only [updateMessages, hdb]
    rw [if_pos hallb]
  set db2 := msgs.foldl (applyMessage folderId accountId now) db with hdb2
  have hrow : msgToRow m folderId accountId now u ∈ db2.messages :=
    foldl_applyMessage_row folderId accountId now msgs db m u hm hu hnodup
  have hkey : (fun r : MessageRow =>
      r.folder_id == folderId && r.account_id == accountId)
        (msgToRow m folderId accountId now u) = true := by
    simp [msgToRow]
  have hmemf : msgToRow m folderId accountId now u
      ∈ db2.messages.filter (fun r =>
          r.folder_id == folderId && r.account_id == accountId) :=
    List.mem_filter.mpr ⟨hrow, hkey⟩
  have hmems : msgToRow m folderId accountId now u
      ∈ (db2.messages.filter (fun r =>
          r.folder_id == folderId && r.account_id == accountId)).insertionSort
            rowDateGe :=
    ((List.perm_insertionSort rowDateGe _).mem_iff).mpr hmemf
  have hlen : ((db2.messages.filter (fun r =>
      r.folder_id == folderId && r.account_id == accountId)).insertionSort
        rowDateGe).length ≤ limit := by
    rw [(List.perm_insertionSort rowDateGe _).length_eq]
    refine le_trans (List.length_filter_le _ _) ?_
    rw [hupd] at hlimit
    simpa using hlimit
  refine ⟨cachedMessageToEmailMessage (msgToRow m folderId accountId now u)
      (attachmentsOf db2 (msgToRow m folderId accountId now u).uid folderId
        accountId), ?_, ?_, ?_, ?_, ?_⟩
  · rw [hupd, getCachedMessages]
    simp only
    rw [List.drop_zero, List.take_of_length_le hlen]
    exact List.mem_map.mpr ⟨msgToRow m folderId accountId now u, hmems, rfl⟩
  · rfl
  · show jsOr m.subject "(No subject)" = m.subject
    rw [jsOr, if_neg hsubj]
  · rfl
  · show splitFlags (joinFlags m.flags) = m.flags
    exact splitFlags_joinFlags m.flags hfl1 hfl2

/-- Witness for the amended C4: a message with subject, date and a Seen
flag written and read back on an empty store. -/
theorem claim4_roundtrip_witness :
    ∃ r ∈ getCachedMessages (updateMessages csEmpty
        [{ sampleMsg 3 250 with flags := ["\\Seen"] }] "INBOX" "acct" 7)
        "INBOX" "acct" 50 0,
      r.uid = some 3 ∧
      r.subject = ({ sampleMsg 3 250 with flags := ["\\Seen"] } : EmailMessage).subject ∧
      r.date = ({ sampleMsg 3 250 with flags := ["\\Seen"] } : EmailMessage).date ∧
      r.flags = ({ sampleMsg 3 250 with flags := ["\\Seen"] } : EmailMessage).flags :=
  claim4_roundtrip csEmpty emptyDB rfl
    [{ sampleMsg 3 250 with flags := ["\\Seen"] }]
    { sampleMsg 3 250 with flags := ["\\Seen"] } 3 "INBOX" "acct" 7 50
    (by decide) (by decide) (by decide) (by decide) (by decide) (by decide)
    (by decide) (by decide)

/-! ## Row stabilization under rewrite -/

/-- Falling back to the empty string changes nothing. -/
theorem jsOr_empty (s : String) : jsOr s "" = s := by
  rw [jsOr]
  by_cases h : s = ""
  · rw [if_pos h, h]
  · rw [if_neg h]

/-- The fallback result is never empty when the fallback is not. -/
theorem jsOr_ne_empty (s d : String) (hd : d ≠ "") : jsOr s d ≠ "" := by
  rw [jsOr]
  by_cases h : s = ""
  · rw [if_pos h]; exact hd
  · rw [if_neg h]; exact h

/-- Dropping a satisfied prefix twice is dropping it once. -/
theorem dropWhile_idem (p : Char → Bool) (l : List Char) :
    (l.dropWhile p).dropWhile p = l.dropWhile p := by
  induction l with
  | nil => rfl
  | cons c cs ih =>
    rw [List.dropWhile_cons]
    by_cases h : p c = true
    · rw [if_pos h]; exact ih
    · rw [if_neg h, List.dropWhile_cons, if_neg h]

/-- The head surviving a dropWhile fails the predicate. -/
theorem head_dropWhile_false (p : Char → Bool) (l : List Char) (c : Char)
    (h : (l.dropWhile p).head? = some c) : p c = false := by
  induction l with
  | nil => exact absurd h (by simp)
  | cons x xs ih =>
    rw [List.dropWhile_cons] at h
    by_cases hx : p x = true
    · rw [if_pos hx] at h; exact ih h
    · rw [if_neg hx] at h
      rw [List.head?_cons, Option.some.injEq] at h
      rw [← h]
      exact Bool.eq_false_iff.mpr hx

/-- Trimming produces a sublist. -/
theorem trimChars_sublist (l : List Char) : (trimChars l).Sublist l := by
  rw [trimChars]
  have h1 : (l.dropWhile jsWhitespace).Sublist l := List.dropWhile_sublist _
  have h2 : (((l.dropWhile jsWhitespace).reverse.dropWhile
      jsWhitespace).reverse).Sublist
        ((l.dropWhile jsWhitespace).reverse.reverse) :=
    (List.dropWhile_sublist _).reverse
  rw [List.reverse_reverse] at h2
  exact h2.trans h1

/-- Trimming is idempotent. -/
theorem trimChars_idem (l : List Char) : trimChars (trimChars l) = trimChars l := by
  have hleft : (trimChars l).dropWhile jsWhitespace = trimChars l := by
    rcases hx : trimChars l with _ | ⟨c, t⟩
    · rfl
    · have hpref : ∃ s, trimChars l ++ s = l.dropWhile jsWhitespace := by
        rw [trimChars]
        obtain ⟨s, hs⟩ :=
          (List.dropWhile_suffix jsWhitespace :
            ((l.dropWhile jsWhitespace).reverse.dropWhile jsWhitespace)
              <:+ (l.dropWhile jsWhitespace).reverse)
        refine ⟨s.reverse, ?_⟩
        have := congrArg List.reverse hs
        rw [List.reverse_append, List.reverse_reverse] at this
        exact this
      obtain ⟨s, hs⟩ := hpref
      have hhead : (l.dropWhile jsWhitespace).head? = some c := by
        rw [← hs, hx]
        rfl
      have hc := head_dropWhile_false jsWhitespace l c hhead
      rw [List.dropWhile_cons, if_neg (by rw [hc]; simp)]
  have hrev : (trimChars l).reverse
      = (l.dropWhile jsWhitespace).reverse.dropWhile jsWhitespace := by
    rw [trimChars, List.reverse_reverse]
  show (((trimChars l).dropWhile jsWhitespace).reverse.dropWhile
      jsWhitespace).reverse = trimChars l
  rw [hleft, hrev, dropWhile_idem, ← hrev, List.reverse_reverse]

/-- Pointwise-fixed maps are the identity. -/
theorem map_eq_self_of_forall {α : Type} (f : α → α) (l : List α)
    (h : ∀ x ∈ l, f x = x) : l.map f = l := by
  induction l with
  | nil => rfl
  | cons c cs ih =>
    rw [List.map_cons, h c (List.mem_cons_self c cs),
      ih (fun x hx => h x (List.mem_cons_of_mem c hx))]

/-- The newline substitution leaves no newline behind. -/
theorem no_newline_of_map (l : List Char) :
    ∀ c ∈ l.map (fun c => if c = '\n' then ' ' else c), c ≠ '\n' := by
  intro c hc
  obtain ⟨x, _, hx⟩ := List.mem_map.mp hc
  by_cases hn : x = '\n'
  · rw [if_pos hn] at hx; rw [← hx]; decide
  · rw [if_neg hn] at hx; rw [← hx]; exact hn

/-- The preview computation is idempotent. -/
theorem previewOf_idem (b : Option String) :
    previewOf (some (previewOf b)) = previewOf b := by
  rcases b with _ | y
  · rfl
  · rw [previewOf]
    by_cases hz : previewOf (some y) = ""
    · rw [if_pos hz, hz]
    · rw [if_neg hz]
      by_cases hy : y = ""
      · exact absurd (by rw [hy]; rfl) hz
      · have hinner : previewOf (some y)
            = String.mk (trimChars ((y.data.take 200).map
                (fun c => if c = '\n' then ' ' else c))) := by
          rw [previewOf, if_neg hy]
        set cy := trimChars ((y.data.take 200).map
          (fun c => if c = '\n' then ' ' else c)) with hcy
        rw [hinner]
        show String.mk (trimChars ((cy.take 200).map
          (fun c => if c = '\n' then ' ' else c))) = String.mk cy
        have hlen : cy.length ≤ 200 := by
          refine le_trans (trimChars_sublist _).length_le ?_
          rw [List.length_map]
          exact le_trans (List.length_take_le 200 y.data) (by omega)
        have htake : cy.take 200 = cy := List.take_of_length_le hlen
        have hmem : ∀ c ∈ cy, c ≠ '\n' := by
          intro c hc
          exact no_newline_of_map _ c ((trimChars_sublist _).subset hc)
        have hmap : cy.map (fun c => if c = '\n' then ' ' else c) = cy := by
          refine map_eq_self_of_forall _ cy ?_
          intro c hc
          rw [if_neg (hmem c hc)]
        rw [htake, hmap, trimChars_idem]

/-- Value of the rewrite of a cached row through conversion and
re-insertion. -/
theorem Phi_def (f a : String) (t : Int) (r : MessageRow)
    (atts : List AttachmentRow) :
    msgToRow (cachedMessageToEmailMessage r atts) f a t r.uid
      = { uid := r.uid, folder_id := f, account_id := a
          subject := jsOr r.subject "(No subject)"
          from_name := r.from_name, from_address := r.from_address
          date := r.date, flags := r.flags
          preview := previewOf (some r.preview)
          has_attachments := decide (0 < atts.length)
          thread_count := 0, last_fetched := t } := by
  rw [msgToRow, cachedMessageToEmailMessage]
  simp only
  refine MessageRow.mk.injEq _ _ _ _ _ _ _ _ _ _ _ _ _ _ _ _ _ _ _ _ _ _ _ _
    |>.mpr ?_
  refine ⟨rfl, rfl, rfl, rfl, ?_, ?_, rfl, ?_, rfl, ?_, ?_, rfl⟩
  · rw [List.head?_cons]
    show jsOptOr (jsOrUndef (some r.from_name)) "" = r.from_name
    rw [jsOrUndef]
    by_cases h : r.from_name = ""
    · rw [if_pos h, jsOptOr, h]
    · rw [if_neg h, jsOptOr, jsOr_empty]
  · rw [List.head?_cons]
    show jsOptOr (some r.from_address) "" = r.from_address
    rw [jsOptOr, jsOr_empty]
  · exact joinFlags_splitFlags r.flags
  · by_cases h : 0 < atts.length
    · rw [if_pos (by simpa using h)]
      simp [h]
    · rw [if_neg (by simpa using h)]
      simp [h]
  · by_cases h : 0 < r.thread_count
    · rw [if_pos (by simpa using h)]
      rfl
    · rw [if_neg (by simpa using h)]

/-- A row already in the image of the rewrite is a fixpoint of the rewrite
up to its fetch timestamp. -/
theorem Phi_stable (f a : String) (t : Int) (r : MessageRow)
    (atts : List AttachmentRow)
    (hfol : r.folder_id = f) (hacc : r.account_id = a)
    (hsub : r.subject ≠ "") (htc : r.thread_count = 0)
    (hha : r.has_attachments = decide (0 < atts.length))
    (hprev : previewOf (some r.preview) = r.preview) :
    msgToRow (cachedMessageToEmailMessage r atts) f a t r.uid
      = { r with last_fetched := t } := by
  rw [Phi_def]
  refine MessageRow.mk.injEq _ _ _ _ _ _ _ _ _ _ _ _ _ _ _ _ _ _ _ _ _ _ _ _
    |>.mpr ?_
  refine ⟨rfl, hfol.symm, hacc.symm, ?_, rfl, rfl, rfl, rfl, hprev, hha.symm,
    htc.symm, rfl⟩
  rw [jsOr, if_neg hsub]

/-- The transaction's messages table only depends on the previous messages
table. -/
theorem foldl_applyMessage_messages_proj (folderId accountId : String)
    (now : Int) (msgs : List EmailMessage) :
    ∀ db : CacheDB,
      (msgs.foldl (applyMessage folderId accountId now) db).messages
        = msgs.foldl (upsertStep folderId accountId now) db.messages := by
  induction msgs with
  | nil => intro db; rfl
  | cons m rest ih =>
    intro db
    rw [List.foldl_cons, List.foldl_cons, ih]
    congr 1
    rcases hu : m.uid with _ | u
    · have h1 : applyMessage folderId accountId now db m = db := by
        simp only [applyMessage, hu]
      rw [h1]
      simp only [upsertStep, hu]
    · rw [applyMessage_messages folderId accountId now db m u hu]
      simp only [upsertStep, hu]

/-- Folders are untouched by the transaction. -/
theorem foldl_applyMessage_folders (folderId accountId : String) (now : Int)
    (msgs : List EmailMessage) :
    ∀ db : CacheDB,
      (msgs.foldl (applyMessage folderId accountId now) db).folders
        = db.folders := by
  induction msgs with
  | nil => intro db; rfl
  | cons m rest ih =>
    intro db
    rw [List.foldl_cons, ih]
    rcases hu : m.uid with _ | u
    · simp only [applyMessage, hu]
    · simp only [applyMessage, hu]
      rcases m.attachments with _ | atts
      · rfl
      · by_cases hlen : atts.length > 0 <;> simp [hlen]

/-- Attachments-table effect of one transaction iteration. -/
theorem applyMessage_attachments (folderId accountId : String) (now : Int)
    (db : CacheDB) (m : EmailMessage) :
    (applyMessage folderId accountId now db m).attachments
      = attStep folderId accountId db.attachments m := by
  rcases hu : m.uid with _ | u
  · simp only [applyMessage, attStep, hu]
  · simp only [applyMessage, attStep, hu]
    rcases m.attachments with _ | atts
    · rfl
    · by_cases hlen : atts.length > 0 <;> simp [hlen]

/-- The transaction's attachments table only depends on the previous
attachments table. -/
theorem foldl_applyMessage_attachments_proj (folderId accountId : String)
    (now : Int) (msgs : List EmailMessage) :
    ∀ db : CacheDB,
      (msgs.foldl (applyMessage folderId accountId now) db).attachments
        = msgs.foldl (attStep folderId accountId) db.attachments := by
  induction msgs with
  | nil => intro db; rfl
  | cons m rest ih =>
    intro db
    rw [List.foldl_cons, List.foldl_cons, ih]
    congr 1
    exact applyMessage_attachments folderId accountId now db m

/-! ## Attachment lookup through the transaction -/

/-- Deleting a key leaves nothing under that key. -/
theorem filter_deleteAttachmentsFor_self (A : List AttachmentRow) (u : Nat)
    (folderId accountId : String) :
    (deleteAttachmentsFor A u folderId accountId).filter (fun x =>
      x.message_uid == u && x.folder_id == folderId && x.account_id == accountId)
        = [] := by
  rw [List.filter_eq_nil_iff]
  intro x hx
  have h2 := (List.mem_filter.mp hx).2
  simp only [Bool.not_eq_eq_eq_not, Bool.not_true] at h2
  rw [h2]
  simp

/-- Deleting a different key preserves a key's rows. -/
theorem filter_deleteAttachmentsFor_other (A : List AttachmentRow)
    (u v : Nat) (folderId accountId : String) (huv : u ≠ v) :
    (deleteAttachmentsFor A v folderId accountId).filter (fun x =>
      x.message_uid == u && x.folder_id == folderId && x.account_id == accountId)
        = A.filter (fun x =>
      x.message_uid == u && x.folder_id == folderId && x.account_id == accountId) := by
  rw [deleteAttachmentsFor, List.filter_filter]
  refine List.filter_congr ?_
  intro x _
  by_cases hk : (x.message_uid == u && x.folder_id == folderId &&
      x.account_id == accountId) = true
  · rw [hk]
    have hu : x.message_uid = u := by
      have := (Bool.and_eq_true _ _ |>.mp (Bool.and_eq_true _ _ |>.mp hk).1).1
      exact beq_iff_eq.mp this
    have : (x.message_uid == v) = false := by
      rw [hu]
      exact beq_eq_false_iff_ne.mpr huv
    simp [this]
  · rw [Bool.eq_false_iff.mpr hk]
    simp

/-- Inserted attachment rows carry their message's key. -/
theorem filter_attToRow_self (atts : List Attachment) (u : Nat)
    (folderId accountId : String) :
    (atts.map (attToRow u folderId accountId)).filter (fun x =>
      x.message_uid == u && x.folder_id == folderId && x.account_id == accountId)
        = atts.map (attToRow u folderId accountId) := by
  rw [List.filter_eq_self]
  intro x hx
  obtain ⟨att, _, hatt⟩ := List.mem_map.mp hx
  rw [← hatt]
  simp [attToRow]

/-- Inserted attachment rows never carry a different uid's key. -/
theorem filter_attToRow_other (atts : List Attachment) (u v : Nat)
    (folderId accountId : String) (huv : u ≠ v) :
    (atts.map (attToRow v folderId accountId)).filter (fun x =>
      x.message_uid == u && x.folder_id == folderId && x.account_id == accountId)
        = [] := by
  rw [List.filter_eq_nil_iff]
  intro x hx
  obtain ⟨att, _, hatt⟩ := List.mem_map.mp hx
  rw [← hatt]
  simp [attToRow, beq_eq_false_iff_ne.mpr (fun h => huv h.symm)]

/-- Key lookup after one attachment step for the written message. -/
theorem attStep_lookup_self (folderId accountId : String)
    (A : List AttachmentRow) (m : EmailMessage) (u : Nat)
    (hu : m.uid = some u) :
    (attStep folderId accountId A m).filter (fun x =>
      x.message_uid == u && x.folder_id == folderId && x.account_id == accountId)
        = attWritesOf m u folderId accountId := by
  rcases hatt : m.attachments with _ | atts
  · simp only [attStep, hu, attWritesOf, hatt]
    exact filter_deleteAttachmentsFor_self A u folderId accountId
  · simp only [attStep, hu, attWritesOf, hatt]
    by_cases hlen : atts.length > 0
    · rw [if_pos hlen, if_pos hlen, List.filter_append,
        filter_deleteAttachmentsFor_self, filter_attToRow_self,
        List.nil_append]
    · rw [if_neg hlen, if_neg hlen]
      exact filter_deleteAttachmentsFor_self A u folderId accountId

/-- Key lookup after one attachment step for a different message. -/
theorem attStep_lookup_other (folderId accountId : String)
    (A : List AttachmentRow) (m : EmailMessage) (u : Nat)
    (hm : ∀ v, m.uid = some v → v ≠ u) :
    (attStep folderId accountId A m).filter (fun x =>
      x.message_uid == u && x.folder_id == folderId && x.account_id == accountId)
        = A.filter (fun x =>
      x.message_uid == u && x.folder_id == folderId && x.account_id == accountId) := by
  rcases hv : m.uid with _ | v
  · simp only [attStep, hv]
  · have huv : u ≠ v := fun h => (hm v hv) (h.symm)
    rcases hatt : m.attachments with _ | atts
    · simp only [attStep, hv, hatt]
      exact filter_deleteAttachmentsFor_other A u v folderId accountId huv
    · simp only [attStep, hv, hatt]
      by_cases hlen : atts.length > 0
      · rw [if_pos hlen, List.filter_append,
          filter_deleteAttachmentsFor_other A u v folderId accountId huv,
          filter_attToRow_other atts u v folderId accountId huv,
          List.append_nil]
      · rw [if_neg hlen]
        exact filter_deleteAttachmentsFor_other A u v folderId accountId huv

/-- Key lookup after an attachment fold avoiding the key. -/
theorem foldl_attStep_preserve (folderId accountId : String)
    (msgs : List EmailMessage) :
    ∀ (A : List AttachmentRow) (u : Nat),
      (∀ x ∈ msgs, ∀ v, x.uid = some v → v ≠ u) →
      (msgs.foldl (attStep folderId accountId) A).filter (fun x =>
        x.message_uid == u && x.folder_id == folderId && x.account_id == accountId)
          = A.filter (fun x =>
        x.message_uid == u && x.folder_id == folderId && x.account_id == accountId) := by
  induction msgs with
  | nil => intro A u _; rfl
  | cons m rest ih =>
    intro A u hnot
    rw [List.foldl_cons,
      ih (attStep folderId accountId A m) u
        (fun x hx => hnot x (List.mem_cons_of_mem m hx)),
      attStep_lookup_other folderId accountId A m u
        (hnot m (List.mem_cons_self m rest))]

/-- Key lookup after the attachment fold of a whole batch: the written
message's attachment rows, exactly. -/
theorem foldl_attStep_lookup (folderId accountId : String)
    (msgs : List EmailMessage) :
    ∀ (A : List AttachmentRow) (m : EmailMessage) (u : Nat),
      m ∈ msgs → m.uid = some u → (msgs.filterMap (·.uid)).Nodup →
      (msgs.foldl (attStep folderId accountId) A).filter (fun x =>
        x.message_uid == u && x.folder_id == folderId && x.account_id == accountId)
          = attWritesOf m u folderId accountId := by
  induction msgs with
  | nil => intro A m u hm; exact absurd hm (List.not_mem_nil m)
  | cons m0 rest ih =>
    intro A m u hm hu hnodup
    rw [List.foldl_cons]
    rcases List.mem_cons.mp hm with rfl | hmr
    · rw [List.filterMap_cons, hu] at hnodup
      rw [foldl_attStep_preserve folderId accountId rest _ u ?_,
        attStep_lookup_self folderId accountId A m u hu]
      intro x hx v hv hvu
      subst hvu
      exact (List.nodup_cons.mp hnodup).1 (List.mem_filterMap.mpr ⟨x, hx, hv⟩)
    · rw [List.filterMap_cons] at hnodup
      rcases hx0 : m0.uid with _ | v0
      · rw [hx0] at hnodup
        exact ih _ m u hmr hu hnodup
      · rw [hx0] at hnodup
        exact ih _ m u hmr hu (List.nodup_cons.mp hnodup).2

/-! ## In-place characterization of the messages-table fold -/

/-- An upsert that hits an existing key replaces in place. -/
theorem upsertMessageRow_in_place (M : List MessageRow) (row : MessageRow)
    (h : ∃ r ∈ M, rowKeyIs row.uid row.folder_id row.account_id r = true) :
    upsertMessageRow M row
      = M.map (fun x =>
          if rowKeyIs row.uid row.folder_id row.account_id x then row else x) := by
  obtain ⟨r, hr, hk⟩ := h
  rw [upsertMessageRow, if_pos (List.any_eq_true.mpr ⟨r, hr, hk⟩)]

/-- The messages-table fold over a batch whose keys are all present
rewrites each folder row by its batch message and leaves the rest alone. -/
theorem foldl_upsertStep_in_place (f a : String) (t : Int)
    (msgs : List EmailMessage) :
    ∀ M : List MessageRow,
      (∀ m ∈ msgs, ∀ u, m.uid = some u → ∃ r ∈ M, rowKeyIs u f a r = true) →
      (msgs.filterMap (·.uid)).Nodup →
      msgs.foldl (upsertStep f a t) M
        = M.map (fun r =>
            if (r.folder_id == f && r.account_id == a) = true then
              match msgs.find? (fun m => m.uid == some r.uid) with
              | some m => msgToRow m f a t r.uid
              | none => r
            else r) := by
  induction msgs with
  | nil =>
    intro M _ _
    rw [List.foldl_nil]
    symm
    refine map_eq_self_of_forall _ M ?_
    intro r _
    rw [List.find?_nil, ite_self]
  | cons m rest ih =>
    intro M hpresent hnodup
    rw [List.foldl_cons]
    rcases hu : m.uid with _ | u
    · have hstep : upsertStep f a t M m = M := by
        simp only [upsertStep, hu]
      rw [hstep, ih M (fun x hx => hpresent x (List.mem_cons_of_mem m hx))
        (by rw [List.filterMap_cons, hu] at hnodup; exact hnodup)]
      refine List.map_congr_left ?_
      intro r _
      rw [List.find?_cons_of_neg _ (by simp [hu])]
    · obtain ⟨r0, hr0, hk0⟩ := hpresent m (List.mem_cons_self m rest) u hu
      have hrowkey : (msgToRow m f a t u).uid = u ∧
          (msgToRow m f a t u).folder_id = f ∧
          (msgToRow m f a t u).account_id = a := ⟨rfl, rfl, rfl⟩
      have hstep : upsertStep f a t M m
          = M.map (fun x => if rowKeyIs u f a x then msgToRow m f a t u else x) := by
        simp only [upsertStep, hu]
        rw [upsertMessageRow_in_place M (msgToRow m f a t u) ⟨r0, hr0, hk0⟩]
        rfl
      have hnodup2 : (rest.filterMap (·.uid)).Nodup := by
        rw [List.filterMap_cons, hu] at hnodup
        exact (List.nodup_cons.mp hnodup).2
      have hunotin : ¬ u ∈ rest.filterMap (·.uid) := by
        rw [List.filterMap_cons, hu] at hnodup
        exact (List.nodup_cons.mp hnodup).1
      have hpresent2 : ∀ m2 ∈ rest, ∀ v, m2.uid = some v →
          ∃ r ∈ M.map (fun x => if rowKeyIs u f a x then msgToRow m f a t u else x),
            rowKeyIs v f a r = true := by
        intro m2 hm2 v hv
        obtain ⟨rv, hrv, hkv⟩ := hpresent m2 (List.mem_cons_of_mem m hm2) v hv
        refine ⟨if rowKeyIs u f a rv then msgToRow m f a t u else rv,
          List.mem_map.mpr ⟨rv, hrv, rfl⟩, ?_⟩
        by_cases hcase : rowKeyIs u f a rv = true
        · rw [if_pos hcase]
          have hveq : rv.uid = v := beq_iff_eq.mp
            (Bool.and_eq_true _ _ |>.mp (Bool.and_eq_true _ _ |>.mp hkv).1).1
          have hueq : rv.uid = u := beq_iff_eq.mp
            (Bool.and_eq_true _ _ |>.mp (Bool.and_eq_true _ _ |>.mp hcase).1).1
          rw [rowKeyIs]
          have : v = u := by rw [← hveq, hueq]
          simp [msgToRow, this]
        · rw [if_neg hcase]
          exact hkv
      rw [hstep, ih _ hpresent2 hnodup2, List.map_map]
      refine List.map_congr_left ?_
      intro r _
      show (fun r => if (r.folder_id == f && r.account_id == a) = true then
          match rest.find? (fun m => m.uid == some r.uid) with
          | some m2 => msgToRow m2 f a t r.uid
          | none => r
        else r) (if rowKeyIs u f a r then msgToRow m f a t u else r)
        = if (r.folder_id == f && r.account_id == a) = true then
            match (m :: rest).find? (fun m2 => m2.uid == some r.uid) with
            | some m2 => msgToRow m2 f a t r.uid
            | none => r
          else r
      by_cases hcase : rowKeyIs u f a r = true
      · have hueq : r.uid = u := beq_iff_eq.mp
          (Bool.and_eq_true _ _ |>.mp (Bool.and_eq_true _ _ |>.mp hcase).1).1
        have hfeq : (r.folder_id == f) = true :=
          (Bool.and_eq_true _ _ |>.mp (Bool.and_eq_true _ _ |>.mp hcase).1).2
        have haeq : (r.account_id == a) = true :=
          (Bool.and_eq_true _ _ |>.mp hcase).2
        rw [if_pos hcase]
        simp only
        have hnewkey : (((msgToRow m f a t u).folder_id == f) &&
            ((msgToRow m f a t u).account_id == a)) = true := by
          simp [msgToRow]
        rw [if_pos hnewkey, if_pos (by rw [hfeq, haeq]; rfl)]
        have hfindrest : rest.find? (fun m2 =>
            m2.uid == some (msgToRow m f a t u).uid) = none := by
          rw [List.find?_eq_none]
          intro x hx hcon
          rcases hxu : x.uid with _ | w
          · rw [hxu] at hcon; simp at hcon
          · rw [hxu] at hcon
            have : w = u := by simpa [msgToRow] using hcon
            subst this
            exact hunotin (List.mem_filterMap.mpr ⟨x, hx, hxu⟩)
        rw [hfindrest]
        have hfindcons : (m :: rest).find? (fun m2 => m2.uid == some r.uid)
            = some m := by
          rw [List.find?_cons_of_pos]
          rw [hu, hueq]
          simp
        rw [hfindcons, hueq]
      · rw [if_neg hcase]
        simp only
        by_cases hkey : (r.folder_id == f && r.account_id == a) = true
        · rw [if_pos hkey, if_pos hkey]
          have hneq : r.uid ≠ u := by
            intro hc
            refine absurd hcase ?_
            rw [rowKeyIs]
            simp [hc, (Bool.and_eq_true _ _ |>.mp hkey).1,
              (Bool.and_eq_true _ _ |>.mp hkey).2]
          have hhead : (m :: rest).find? (fun m2 => m2.uid == some r.uid)
              = rest.find? (fun m2 => m2.uid == some r.uid) := by
            rw [List.find?_cons_of_neg]
            rw [hu]
            simp
            exact fun hc => hneq hc.symm
          rw [hhead]
        · rw [if_neg hkey, if_neg hkey]

/-! ## Locating a row's converted message in the cached page -/

/-- On a uid-distinct row list, searching the converted messages for a
member row's uid finds exactly that row's conversion. -/
theorem find?_conv_uid (attf : Nat → List AttachmentRow) :
    ∀ (S : List MessageRow) (r : MessageRow), r ∈ S →
      (S.map (·.uid)).Nodup →
      (S.map (fun row => cachedMessageToEmailMessage row (attf row.uid))).find?
          (fun m => m.uid == some r.uid)
        = some (cachedMessageToEmailMessage r (attf r.uid)) := by
  intro S
  induction S with
  | nil => intro r hr; exact absurd hr (List.not_mem_nil r)
  | cons s rest ih =>
    intro r hr hnodup
    rw [List.map_cons]
    by_cases hsu : s.uid = r.uid
    · have hrs : r = s := by
        rcases List.mem_cons.mp hr with rfl | hrr
        · rfl
        · exfalso
          rw [List.map_cons] at hnodup
          refine (List.nodup_cons.mp hnodup).1 ?_
          rw [hsu]
          exact List.mem_map.mpr ⟨r, hrr, rfl⟩
      rw [List.find?_cons_of_pos _ (by
        show ((cachedMessageToEmailMessage s (attf s.uid)).uid == some r.uid) = true
        simp [cachedMessageToEmailMessage, hsu])]
      rw [hrs]
    · rw [List.find?_cons_of_neg _ (by
        show ¬ ((cachedMessageToEmailMessage s (attf s.uid)).uid == some r.uid) = true
        simp [cachedMessageToEmailMessage, hsu])]
      have hrr : r ∈ rest := by
        rcases List.mem_cons.mp hr with rfl | hrr
        · exact absurd rfl hsu
        · exact hrr
      rw [List.map_cons] at hnodup
      exact ih r hrr (List.nodup_cons.mp hnodup).2

/-- Shape of a cached read whose limit covers the whole folder. -/
theorem getCachedMessages_covering (db : CacheDB) (f a : String) (limit : Nat)
    (hlim : (db.messages.filter (fun r =>
      r.folder_id == f && r.account_id == a)).length ≤ limit) :
    getCachedMessages { db := some db } f a limit 0
      = ((db.messages.filter (fun r =>
          r.folder_id == f && r.account_id == a)).insertionSort
            rowDateGe).map
          (fun row => cachedMessageToEmailMessage row
            (attachmentsOf db row.uid f a)) := by
  rw [getCachedMessages]
  simp only
  rw [List.drop_zero, List.take_of_length_le
    (by rw [(List.perm_insertionSort rowDateGe _).length_eq]; exact hlim)]

/-- The upserted folder row is in the table afterwards. -/
theorem upsertFolderRow_mem (rows : List FolderRow) (r : FolderRow) :
    r ∈ upsertFolderRow rows r := by
  rw [upsertFolderRow]
  by_cases h : rows.any (fun x => x.id == r.id) = true
  · rw [if_pos h]
    obtain ⟨x, hx, hkey⟩ := List.any_eq_true.mp h
    exact List.mem_map.mpr ⟨x, hx, by rw [if_pos hkey]⟩
  · rw [if_neg h]
    exact List.mem_append_right _ (List.mem_singleton_self r)

/-- After an upsert, every row under the upserted id is the new row. -/
theorem upsertFolderRow_unique (rows : List FolderRow) (r x : FolderRow)
    (hx : x ∈ upsertFolderRow rows r) (hid : (x.id == r.id) = true) : x = r := by
  rw [upsertFolderRow] at hx
  by_cases h : rows.any (fun y => y.id == r.id) = true
  · rw [if_pos h] at hx
    obtain ⟨y, hy, hyx⟩ := List.mem_map.mp hx
    by_cases hyk : (y.id == r.id) = true
    · rw [if_pos hyk] at hyx; exact hyx.symm
    · rw [if_neg hyk] at hyx
      rw [← hyx] at hid
      exact absurd hid hyk
  · rw [if_neg h] at hx
    rcases List.mem_append.mp hx with h1 | h1
    · exact absurd (List.any_eq_true.mpr ⟨x, h1, hid⟩) h
    · exact List.mem_singleton.mp h1

/-- An upsert hitting an existing id replaces in place. -/
theorem upsertFolderRow_in_place (rows : List FolderRow) (r : FolderRow)
    (h : ∃ x ∈ rows, (x.id == r.id) = true) :
    upsertFolderRow rows r
      = rows.map (fun x => if x.id == r.id then r else x) := by
  obtain ⟨x, hx, hk⟩ := h
  rw [upsertFolderRow, if_pos (List.any_eq_true.mpr ⟨x, hx, hk⟩)]

/-- The conversion keeps the row's uid. -/
theorem convOf_uid (db : CacheDB) (f a : String) (row : MessageRow) :
    (convOf db f a row).uid = some row.uid := rfl

/-- The number of attachment rows a re-insertion writes equals the number
it was converted from. -/
theorem attWritesOf_conv_length (r : MessageRow) (atts : List AttachmentRow)
    (u : Nat) (f a : String) :
    (attWritesOf (cachedMessageToEmailMessage r atts) u f a).length
      = atts.length := by
  by_cases h : atts.length > 0
  · have hatt : (cachedMessageToEmailMessage r atts).attachments
        = some (atts.map (fun att =>
            { filename := att.filename, contentType := att.content_type
              size := att.size, contentId := jsOrUndef att.content_id })) := by
      rw [cachedMessageToEmailMessage]
      simp only
      rw [if_pos h]
    simp only [attWritesOf, hatt]
    rw [if_pos (by rw [List.length_map]; exact h), List.length_map,
      List.length_map]
  · have hatt : (cachedMessageToEmailMessage r atts).attachments = none := by
      rw [cachedMessageToEmailMessage]
      simp only
      rw [if_neg h]
    simp only [attWritesOf, hatt]
    simp at h
    rw [h]

/-- The uids surviving the page conversion are the rows' uids. -/
theorem filterMap_uid_map_conv (db : CacheDB) (f a : String)
    (S : List MessageRow) :
    (S.map (convOf db f a)).filterMap (·.uid) = S.map (·.uid) := by
  induction S with
  | nil => rfl
  | cons s rest ih =>
    simp only [List.map_cons, List.filterMap_cons, convOf_uid, ih]

/-- Every message of the cached page has a defined uid. -/
theorem cachedPageOf_all_some (db : CacheDB) (f a : String) :
    (cachedPageOf db f a).all (fun m => m.uid.isSome) = true := by
  rw [List.all_eq_true]
  intro m hm
  simp only [cachedPageOf] at hm
  obtain ⟨row, _, hrow⟩ := List.mem_map.mp hm
  rw [← hrow]
  rfl

/-- Searching the cached page for a folder row's uid finds exactly that
row's conversion. -/
theorem find?_convOf (db : CacheDB) (f a : String) (S : List MessageRow)
    (r : MessageRow) (hr : r ∈ S) (hnodup : (S.map (·.uid)).Nodup) :
    (S.map (convOf db f a)).find? (fun m => m.uid == some r.uid)
      = some (convOf db f a r) :=
  find?_conv_uid (fun u => attachmentsOf db u f a) S r hr hnodup

/-- A fetch window whose every truthy uid is already cached yields no new
messages against the cached page. -/
theorem newMessagesOf_steady (db : CacheDB) (f a : String)
    (fetched : List EmailMessage)
    (hnonew : ∀ m ∈ fetched, ∀ v, truthyUid m = some v →
      v ∈ (folderRowsOf db f a).map (·.uid)) :
    newMessagesOf (cachedPageOf db f a) fetched = [] := by
  rw [newMessagesOf, List.filter_eq_nil_iff]
  intro m hm
  rcases htv : truthyUid m with _ | v
  · simp [htv]
  · simp only [htv]
    have hvR := hnonew m hm v htv
    have hvS : v ∈ ((folderRowsOf db f a).insertionSort rowDateGe).map (·.uid) :=
      ((List.perm_insertionSort rowDateGe _).map _).mem_iff.mpr hvR
    have hmem : v ∈ existingUIDs (cachedPageOf db f a) := by
      simp only [existingUIDs, cachedPageOf, filterMap_uid_map_conv]
      exact hvS
    simp [hmem]

/-- One steady-state refresh in full: on a non-empty uid-distinct cached
folder that the covering read returns whole, with a fetch window bringing
no uid outside the cache, the run rewrites the folder's message rows in
place, re-writes their attachment rows, and upserts the metadata row, all
at the run's timestamp. -/
theorem handleRefreshCurrent_steady (db : CacheDB) (f a : String)
    (total : Nat) (remote : Int × Int → List EmailMessage) (t : Int)
    (htotal : 0 < total)
    (hne : folderRowsOf db f a ≠ [])
    (hcount : (folderRowsOf db f a).length ≤ 10000)
    (hnodup : ((folderRowsOf db f a).map (·.uid)).Nodup)
    (hnonew : ∀ m ∈ imapGetMessages remote
        ((max 1 (total - 200 + 1) : Nat) : Int) ((total : Nat) : Int),
      ∀ v, truthyUid m = some v → v ∈ (folderRowsOf db f a).map (·.uid)) :
    handleRefreshCurrent { db := some db } f a total remote t
      = { db := some (steadyDB db f a t) } := by
  have hperm : ((folderRowsOf db f a).insertionSort rowDateGe).Perm
      (folderRowsOf db f a) := List.perm_insertionSort rowDateGe _
  have hnodupS : (((folderRowsOf db f a).insertionSort rowDateGe).map
      (·.uid)).Nodup := (hperm.map (·.uid)).nodup_iff.mpr hnodup
  have hcached : getCachedMessages { db := some db } f a 10000 0
      = cachedPageOf db f a := by
    rw [cachedPageOf]
    exact getCachedMessages_covering db f a 10000 hcount
  have hlen0 : ¬ (cachedPageOf db f a).length = 0 := by
    rw [cachedPageOf, List.length_map, hperm.length_eq]
    exact fun h => hne (List.length_eq_zero.mp h)
  have hmerge : regularRefreshMerge (cachedPageOf db f a)
      (imapGetMessages remote ((max 1 (total - 200 + 1) : Nat) : Int)
        ((total : Nat) : Int))
      = (cachedPageOf db f a, ([] : List EmailMessage)) := by
    have hnew := newMessagesOf_steady db f a _ hnonew
    simp only [regularRefreshMerge, hnew]
    simp
  simp only [handleRefreshCurrent]
  rw [hcached, if_pos htotal, if_neg hlen0, hmerge]
  show updateFolderMetadata
      (updateMessages { db := some db } (cachedPageOf db f a) f a t) f a
      (cachedPageOf db f a).length (computeUnread (cachedPageOf db f a)) t
    = { db := some (steadyDB db f a t) }
  have hupd : updateMessages { db := some db } (cachedPageOf db f a) f a t
      = { db := some ((cachedPageOf db f a).foldl (applyMessage f a t) db) } := by
    show (if ((cachedPageOf db f a).all fun m => m.uid.isSome) = true then
        ({ db := some ((cachedPageOf db f a).foldl (applyMessage f a t) db) }
          : CacheService)
      else { db := some db }) = _
    rw [if_pos (cachedPageOf_all_some db f a)]
  rw [hupd]
  have hbody : ({
      messages := ((cachedPageOf db f a).foldl (applyMessage f a t) db).messages
      folders := upsertFolderRow
        ((cachedPageOf db f a).foldl (applyMessage f a t) db).folders
        { id := folderKey a f, account_id := a, name := f, last_sync := t
          total_count := (cachedPageOf db f a).length
          unread_count := computeUnread (cachedPageOf db f a) }
      attachments :=
        ((cachedPageOf db f a).foldl (applyMessage f a t) db).attachments }
      : CacheDB)
      = steadyDB db f a t := by
    simp only [steadyDB]
    refine CacheDB.mk.injEq _ _ _ _ _ _ |>.mpr ⟨?_, ?_, ?_⟩
    · rw [foldl_applyMessage_messages_proj]
      have hpresent : ∀ m ∈ cachedPageOf db f a, ∀ u, m.uid = some u →
          ∃ row ∈ db.messages, rowKeyIs u f a row = true := by
        intro m hm u hu
        simp only [cachedPageOf] at hm
        obtain ⟨row, hrowS, hconv⟩ := List.mem_map.mp hm
        have hrowR : row ∈ folderRowsOf db f a := hperm.subset hrowS
        rw [folderRowsOf] at hrowR
        have hmemdb := (List.mem_filter.mp hrowR).1
        have hkey := (List.mem_filter.mp hrowR).2
        have huv : u = row.uid := by
          rw [← hconv, convOf_uid] at hu
          exact ((Option.some.injEq _ _).mp hu).symm
        refine ⟨row, hmemdb, ?_⟩
        rw [rowKeyIs, huv]
        have h1 := (Bool.and_eq_true _ _).mp hkey
        simp [h1.1, h1.2]
      have hnodup' : ((cachedPageOf db f a).filterMap (·.uid)).Nodup := by
        simp only [cachedPageOf, filterMap_uid_map_conv]
        exact hnodupS
      rw [foldl_upsertStep_in_place f a t (cachedPageOf db f a) db.messages
        hpresent hnodup']
      refine List.map_congr_left ?_
      intro r hr
      by_cases hk : (r.folder_id == f && r.account_id == a) = true
      · rw [if_pos hk, if_pos hk]
        have hrR : r ∈ folderRowsOf db f a := by
          rw [folderRowsOf]
          exact List.mem_filter.mpr ⟨hr, hk⟩
        have hrS : r ∈ (folderRowsOf db f a).insertionSort rowDateGe :=
          hperm.mem_iff.mpr hrR
        have hfind := find?_convOf db f a _ r hrS hnodupS
        simp only [cachedPageOf]
        rw [hfind]
        rfl
      · rw [if_neg hk, if_neg hk]
    · rw [foldl_applyMessage_folders]
      have hlen : (cachedPageOf db f a).length = (folderRowsOf db f a).length := by
        rw [cachedPageOf, List.length_map, hperm.length_eq]
      have hunread : computeUnread (cachedPageOf db f a)
          = unreadOfRows (folderRowsOf db f a) := by
        rw [computeUnread, cachedPageOf, ← List.countP_eq_length_filter,
          List.countP_map, unreadOfRows, ← hperm.countP_eq]
        rfl
      rw [steadyMetaRow, hlen, hunread]
    · rw [foldl_applyMessage_attachments_proj]
  exact congrArg (fun d => ({ db := some d } : CacheService)) hbody

/-- Messages table of the steady-state rewrite. -/
theorem steadyDB_messages (db : CacheDB) (f a : String) (t : Int) :
    (steadyDB db f a t).messages
      = db.messages.map (fun r =>
          if (r.folder_id == f && r.account_id == a) = true then
            rewriteOf db f a t r
          else r) := rfl

/-- Folders table of the steady-state rewrite. -/
theorem steadyDB_folders (db : CacheDB) (f a : String) (t : Int) :
    (steadyDB db f a t).folders
      = upsertFolderRow db.folders (steadyMetaRow db f a t) := rfl

/-- After a steady-state refresh, a folder row's attachment rows are
exactly the rows its own re-insertion wrote. -/
theorem steadyDB_attachments_lookup (db : CacheDB) (f a : String) (t : Int)
    (hnodup : ((folderRowsOf db f a).map (·.uid)).Nodup)
    (r : MessageRow) (hr : r ∈ folderRowsOf db f a) :
    attachmentsOf (steadyDB db f a t) r.uid f a
      = attWritesOf (convOf db f a r) r.uid f a := by
  rw [attachmentsOf]
  have hperm := List.perm_insertionSort rowDateGe (folderRowsOf db f a)
  have hrS : r ∈ (folderRowsOf db f a).insertionSort rowDateGe :=
    hperm.mem_iff.mpr hr
  have hm : convOf db f a r ∈ cachedPageOf db f a := by
    simp only [cachedPageOf]
    exact List.mem_map.mpr ⟨r, hrS, rfl⟩
  have hnodup' : ((cachedPageOf db f a).filterMap (·.uid)).Nodup := by
    simp only [cachedPageOf, filterMap_uid_map_conv]
    exact (hperm.map (·.uid)).nodup_iff.mpr hnodup
  exact foldl_attStep_lookup f a (cachedPageOf db f a) db.attachments
    (convOf db f a r) r.uid hm (convOf_uid db f a r) hnodup'

/-- The folder's rows after a steady-state refresh are the old rows,
rewritten in order. -/
theorem folderRowsOf_steady (db : CacheDB) (f a : String) (t : Int) :
    folderRowsOf (steadyDB db f a t) f a
      = (folderRowsOf db f a).map (rewriteOf db f a t) := by
  rw [folderRowsOf, folderRowsOf, steadyDB_messages, List.filter_map]
  have h1 : db.messages.filter ((fun r => r.folder_id == f && r.account_id == a)
        ∘ fun r => if (r.folder_id == f && r.account_id == a) = true then
            rewriteOf db f a t r else r)
      = db.messages.filter (fun r => r.folder_id == f && r.account_id == a) := by
    refine List.filter_congr ?_
    intro r _
    simp only [Function.comp_apply]
    by_cases hk : (r.folder_id == f && r.account_id == a) = true
    · rw [if_pos hk, hk,
        show (rewriteOf db f a t r).folder_id = f from rfl,
        show (rewriteOf db f a t r).account_id = a from rfl]
      simp
    · rw [if_neg hk]
  rw [h1]
  refine List.map_congr_left ?_
  intro r hr
  rw [if_pos (List.mem_filter.mp hr).2]

/-- Counterexample to C3 as stated: with no new remote messages, the second
refresh run still rewrites the cached message rows (their last_fetched is
set to the second run's Date.now()) and the folder-metadata row (its
last_sync likewise), so neither the cached message set nor the folder
metadata is byte-for-byte unchanged. -/
theorem claim3_refresh_idempotence_cx :
    (handleRefreshCurrent (handleRefreshCurrent { db := some inboxDB }
          "INBOX" "acct" 1 remoteSame 5) "INBOX" "acct" 1 remoteSame 9).db.map
        CacheDB.messages
      ≠ (handleRefreshCurrent { db := some inboxDB }
          "INBOX" "acct" 1 remoteSame 5).db.map CacheDB.messages ∧
    (handleRefreshCurrent (handleRefreshCurrent { db := some inboxDB }
          "INBOX" "acct" 1 remoteSame 5) "INBOX" "acct" 1 remoteSame 9).db.map
        CacheDB.folders
      ≠ (handleRefreshCurrent { db := some inboxDB }
          "INBOX" "acct" 1 remoteSame 5).db.map CacheDB.folders := by
  refine ⟨by decide, by decide⟩

/-- C3 (amended): running the incremental (steady-state) refresh twice in a
row, when the remote folder contains no messages beyond those already
cached, leaves the cached message set and the folder metadata unchanged
after the second run except for the write timestamps the source rewrites on
every run: each of the folder's message rows gets last_fetched set to the
second run's Date.now() by updateMessages, and the folder-metadata row gets
last_sync set to the second run's Date.now() by updateFolderMetadata;
everything else — the row set, uids, subjects, senders, dates, flags,
previews, attachment indicators, thread counts, and the metadata's total
and unread counts — is byte-for-byte unchanged. -/
theorem claim3_refresh_idempotence (db : CacheDB) (f a : String)
    (total : Nat) (remote : Int × Int → List EmailMessage) (t₁ t₂ : Int)
    (htotal : 0 < total)
    (hne : folderRowsOf db f a ≠ [])
    (hcount : (folderRowsOf db f a).length ≤ 10000)
    (hnodup : ((folderRowsOf db f a).map (·.uid)).Nodup)
    (hnonew : ∀ m ∈ imapGetMessages remote
        ((max 1 (total - 200 + 1) : Nat) : Int) ((total : Nat) : Int),
      ∀ v, truthyUid m = some v → v ∈ (folderRowsOf db f a).map (·.uid)) :
    ∃ db₁ db₂,
      handleRefreshCurrent { db := some db } f a total remote t₁
        = { db := some db₁ } ∧
      handleRefreshCurrent { db := some db₁ } f a total remote t₂
        = { db := some db₂ } ∧
      db₂.messages = db₁.messages.map (fun r =>
        if (r.folder_id == f && r.account_id == a) = true then
          { r with last_fetched := t₂ }
        else r) ∧
      db₂.folders = db₁.folders.map (fun x =>
        if (x.id == folderKey a f) = true then { x with last_sync := t₂ }
        else x) := by
  have hRmap := folderRowsOf_steady db f a t₁
  have hne2 : folderRowsOf (steadyDB db f a t₁) f a ≠ [] := by
    rw [hRmap]
    exact fun h => hne (List.map_eq_nil_iff.mp h)
  have hcount2 : (folderRowsOf (steadyDB db f a t₁) f a).length ≤ 10000 := by
    rw [hRmap, List.length_map]
    exact hcount
  have hmapuid : (folderRowsOf (steadyDB db f a t₁) f a).map (·.uid)
      = (folderRowsOf db f a).map (·.uid) := by
    rw [hRmap, List.map_map]
    rfl
  have hnodup2 : ((folderRowsOf (steadyDB db f a t₁) f a).map (·.uid)).Nodup := by
    rw [hmapuid]
    exact hnodup
  have hnonew2 : ∀ m ∈ imapGetMessages remote
      ((max 1 (total - 200 + 1) : Nat) : Int) ((total : Nat) : Int),
      ∀ v, truthyUid m = some v →
        v ∈ (folderRowsOf (steadyDB db f a t₁) f a).map (·.uid) := by
    intro m hm v hv
    rw [hmapuid]
    exact hnonew m hm v hv
  refine ⟨steadyDB db f a t₁, steadyDB (steadyDB db f a t₁) f a t₂,
    handleRefreshCurrent_steady db f a total remote t₁ htotal hne hcount
      hnodup hnonew,
    handleRefreshCurrent_steady (steadyDB db f a t₁) f a total remote t₂
      htotal hne2 hcount2 hnodup2 hnonew2, ?_, ?_⟩
  · rw [steadyDB_messages (steadyDB db f a t₁) f a t₂]
    refine List.map_congr_left ?_
    intro x hx
    rw [steadyDB_messages db f a t₁] at hx
    obtain ⟨r, hrdb, hg⟩ := List.mem_map.mp hx
    by_cases hk0 : (r.folder_id == f && r.account_id == a) = true
    · rw [if_pos hk0] at hg
      have hfol : x.folder_id = f := by rw [← hg]; rfl
      have hacc : x.account_id = a := by rw [← hg]; rfl
      have hkey : (x.folder_id == f && x.account_id == a) = true := by
        rw [hfol, hacc]
        simp
      rw [if_pos hkey, if_pos hkey]
      have hxeq : x
          = { uid := r.uid, folder_id := f, account_id := a
              subject := jsOr r.subject "(No subject)"
              from_name := r.from_name, from_address := r.from_address
              date := r.date, flags := r.flags
              preview := previewOf (some r.preview)
              has_attachments := decide (0 < (attachmentsOf db r.uid f a).length)
              thread_count := 0, last_fetched := t₁ } := by
        rw [← hg]
        exact Phi_def f a t₁ r (attachmentsOf db r.uid f a)
      have hrR : r ∈ folderRowsOf db f a := by
        rw [folderRowsOf]
        exact List.mem_filter.mpr ⟨hrdb, hk0⟩
      have hxuid : x.uid = r.uid := by rw [hxeq]
      have hlen : (attachmentsOf (steadyDB db f a t₁) x.uid f a).length
          = (attachmentsOf db r.uid f a).length := by
        rw [hxuid, steadyDB_attachments_lookup db f a t₁ hnodup r hrR]
        exact attWritesOf_conv_length r (attachmentsOf db r.uid f a) r.uid f a
      have hsub : x.subject ≠ "" := by
        rw [hxeq]
        exact jsOr_ne_empty r.subject "(No subject)" (by decide)
      have htc : x.thread_count = 0 := by rw [hxeq]
      have hha : x.has_attachments
          = decide (0 < (attachmentsOf (steadyDB db f a t₁) x.uid f a).length) := by
        rw [hlen, hxeq]
      have hprev : previewOf (some x.preview) = x.preview := by
        rw [hxeq]
        exact previewOf_idem (some r.preview)
      exact Phi_stable f a t₂ x (attachmentsOf (steadyDB db f a t₁) x.uid f a)
        hfol hacc hsub htc hha hprev
    · rw [if_neg hk0] at hg
      have hkey : ¬ (x.folder_id == f && x.account_id == a) = true := by
        rw [← hg]
        exact hk0
      rw [if_neg hkey, if_neg hkey]
  · rw [steadyDB_folders (steadyDB db f a t₁) f a t₂]
    have hmem1 : steadyMetaRow db f a t₁ ∈ (steadyDB db f a t₁).folders := by
      rw [steadyDB_folders db f a t₁]
      exact upsertFolderRow_mem db.folders (steadyMetaRow db f a t₁)
    have hidr : (steadyMetaRow (steadyDB db f a t₁) f a t₂).id
        = folderKey a f := rfl
    have hany : ∃ x ∈ (steadyDB db f a t₁).folders,
        (x.id == (steadyMetaRow (steadyDB db f a t₁) f a t₂).id) = true :=
      ⟨steadyMetaRow db f a t₁, hmem1, by
        rw [hidr, show (steadyMetaRow db f a t₁).id = folderKey a f from rfl]
        simp⟩
    rw [upsertFolderRow_in_place _ _ hany]
    refine List.map_congr_left ?_
    intro x hx
    rw [hidr]
    by_cases hxid : (x.id == folderKey a f) = true
    · rw [if_pos hxid, if_pos hxid]
      have hxeq : x = steadyMetaRow db f a t₁ := by
        refine upsertFolderRow_unique db.folders (steadyMetaRow db f a t₁) x ?_ ?_
        · rw [steadyDB_folders db f a t₁] at hx
          exact hx
        · rw [show (steadyMetaRow db f a t₁).id = folderKey a f from rfl]
          exact hxid
      have hlenR : (folderRowsOf (steadyDB db f a t₁) f a).length
          = (folderRowsOf db f a).length := by
        rw [hRmap, List.length_map]
      have hunR : unreadOfRows (folderRowsOf (steadyDB db f a t₁) f a)
          = unreadOfRows (folderRowsOf db f a) := by
        rw [hRmap, unreadOfRows, unreadOfRows, List.countP_map]
        refine List.countP_congr ?_
        intro r _
        simp only [Function.comp_apply]
        have hfl : (rewriteOf db f a t₁ r).flags = r.flags := by
          rw [rewriteOf, convOf, Phi_def f a t₁ r (attachmentsOf db r.uid f a)]
        rw [hfl]
      rw [hxeq]
      show steadyMetaRow (steadyDB db f a t₁) f a t₂
          = { steadyMetaRow db f a t₁ with last_sync := t₂ }
      simp only [steadyMetaRow]
      rw [hlenR, hunR]
    · rw [if_neg hxid, if_neg hxid]

/-- Witness instantiating C3's amended theorem on the one-message INBOX
fixture with run timestamps 5 and 9, all hypotheses discharged
concretely. -/
theorem claim3_refresh_idempotence_witness :
    (0 < 1 ∧
     folderRowsOf inboxDB "INBOX" "acct" ≠ [] ∧
     (folderRowsOf inboxDB "INBOX" "acct").length ≤ 10000 ∧
     ((folderRowsOf inboxDB "INBOX" "acct").map (·.uid)).Nodup ∧
     (∀ m ∈ imapGetMessages remoteSame
         ((max 1 (1 - 200 + 1) : Nat) : Int) ((1 : Nat) : Int),
       ∀ v, truthyUid m = some v →
         v ∈ (folderRowsOf inboxDB "INBOX" "acct").map (·.uid))) ∧
    (∃ db₁ db₂,
      handleRefreshCurrent { db := some inboxDB } "INBOX" "acct" 1 remoteSame 5
        = { db := some db₁ } ∧
      handleRefreshCurrent { db := some db₁ } "INBOX" "acct" 1 remoteSame 9
        = { db := some db₂ } ∧
      db₂.messages = db₁.messages.map (fun r =>
        if (r.folder_id == "INBOX" && r.account_id == "acct") = true then
          { r with last_fetched := 9 }
        else r) ∧
      db₂.folders = db₁.folders.map (fun x =>
        if (x.id == folderKey "acct" "INBOX") = true then
          { x with last_sync := 9 }
        else x)) :=
  ⟨⟨by decide, by decide, by decide, by decide, by decide⟩,
   claim3_refresh_idempotence inboxDB "INBOX" "acct" 1 remoteSame 5 9
     (by decide) (by decide) (by decide) (by decide) (by decide)⟩

/-- C10: getFolderStatus resolves with the mailbox counters when the
existence search fails, resolves with the search total and the mailbox new
count when only the unseen search fails, and rejects exactly when no
connection exists or the folder cannot be opened. -/
theorem claim10_folder_status_fallback :
    (∀ box su e, getFolderStatus true (.ok box) (.error e) su
        = .ok (box.total, box.newCount)) ∧
    (∀ box all e, getFolderStatus true (.ok box) (.ok all) (.error e)
        = .ok ((all.getD []).length, box.newCount)) ∧
    (∀ box all unseen, getFolderStatus true (.ok box) (.ok all) (.ok unseen)
        = .ok ((all.getD []).length, (unseen.getD []).length)) ∧
    (∀ connected openBox searchAll searchUnseen,
      (∃ e, getFolderStatus connected openBox searchAll searchUnseen = .error e)
        ↔ (connected = false ∨ ∃ e, openBox = .error e)) := by
  refine ⟨?_, ?_, ?_, ?_⟩
  · intro box su e
    cases su <;> simp [getFolderStatus]
  · intro box all e
    simp [getFolderStatus]
  · intro box all unseen
    simp [getFolderStatus]
  · intro connected openBox searchAll searchUnseen
    cases connected <;> cases openBox <;> cases searchAll <;>
      cases searchUnseen <;> simp [getFolderStatus]

end Chaski
